import Mathlib

/-!
# A verification model of the smb-rs variable-length codec layer

Shallow embedding of the binary codec engine of the `smb-rs` repository:
the chained-item list codec (`crates/smb-fscc/src/chained_list.rs`), the
SMB2 CREATE request and its create-context records
(`crates/smb-msg/src/create.rs`), negotiate contexts
(`crates/smb-msg/src/negotiate.rs`), the READ response
(`crates/smb-msg/src/file.rs`), and the structure-size field inserted by
the `smb_request`/`smb_response` macros (`crates/smb-msg-derive/src/lib.rs`).

Byte streams are modelled as `List Nat` (each entry one wire byte), a
stream cursor as an explicit position `Nat`, and fallible decoding /
encoding as `Except`.  Multi-byte integers are little-endian, as the wire
format mandates.  `binrw` seek/align/take-stream combinators are embedded
as position arithmetic and `List.take` region truncation.  `PosMarker`
placeholder/back-patch writes (defined in `smb-dtyp`'s `binrw_util`, which
is outside the sources at hand) are folded into direct writes of the
resolved values, following the spec's Position Marker contract: the
placeholder occupies the field's exact width and is later overwritten in
place with the resolved value, so the final buffer equals the buffer with
the resolved value written directly.

Encoding of a whole message is modelled at stream offset 0 (a standalone
buffer holding just that structure), and decoding likewise starts at
position 0 unless a position argument says otherwise.
-/

namespace Smb

/-- Decode-side failures, following the error taxonomy of the spec:
`binrw` assert failures on constant/reserved fields are
`structuralViolation`, the chained-item offset alignment assert is
`alignmentViolation`, reads past the end of the stream (or of a bounded
region) are `boundsViolation`, and a discriminant with no matching
variant (`br(pre_assert)` dispatch, `brw(repr)` enums) is
`unknownDiscriminant`. -/
inductive DecodeError where
  | structuralViolation
  | alignmentViolation
  | boundsViolation
  | unknownDiscriminant
deriving DecidableEq, Repr

/-- Encode-side failures: `encodingOverflow` for a `try_calc`/marker value
that does not fit its integer field, `panicked` for code paths that call
`unwrap()` on such a conversion instead of returning the error, and
`assertFail` for a failed `bw(assert(...))`. -/
inductive EncodeError where
  | encodingOverflow
  | panicked
  | assertFail
deriving DecidableEq, Repr

/-- Little-endian bytes of a 16-bit value. -/
def le16 (v : Nat) : List Nat := [v % 256, v / 256 % 256]

/-- Little-endian bytes of a 32-bit value. -/
def le32 (v : Nat) : List Nat :=
  [v % 256, v / 256 % 256, v / 2 ^ 16 % 256, v / 2 ^ 24 % 256]

/-- Little-endian bytes of a 64-bit value. -/
def le64 (v : Nat) : List Nat := le32 (v % 2 ^ 32) ++ le32 (v / 2 ^ 32)

/-- Little-endian bytes of a 128-bit value. -/
def le128 (v : Nat) : List Nat := le64 (v % 2 ^ 64) ++ le64 (v / 2 ^ 64)

/-- The value of a little-endian byte list. -/
def valLE : List Nat → Nat
  | [] => 0
  | b :: rest => b + 256 * valLE rest

/-- Read `n` bytes at `pos`; fails (like an EOF from `binrw`) when the
buffer does not hold that many bytes. -/
def readBytes (buf : List Nat) (pos n : Nat) : Except DecodeError (List Nat) :=
  if pos + n ≤ buf.length then .ok ((buf.drop pos).take n) else .error .boundsViolation

/-- Read a `u8` at `pos`. -/
def readU8 (buf : List Nat) (pos : Nat) : Except DecodeError Nat :=
  (readBytes buf pos 1).map valLE

/-- Read a little-endian `u16` at `pos`. -/
def readU16 (buf : List Nat) (pos : Nat) : Except DecodeError Nat :=
  (readBytes buf pos 2).map valLE

/-- Read a little-endian `u32` at `pos`. -/
def readU32 (buf : List Nat) (pos : Nat) : Except DecodeError Nat :=
  (readBytes buf pos 4).map valLE

/-- Read a little-endian `u64` at `pos`. -/
def readU64 (buf : List Nat) (pos : Nat) : Except DecodeError Nat :=
  (readBytes buf pos 8).map valLE

/-- Read a little-endian `u128` at `pos`. -/
def readU128 (buf : List Nat) (pos : Nat) : Except DecodeError Nat :=
  (readBytes buf pos 16).map valLE

/-- The next stream position at or after `n` that is a multiple of `pad`
(the `binrw` `align_before` computation: `(pad - pos % pad) % pad` bytes
of padding). -/
def alignUp (n pad : Nat) : Nat := n + (pad - n % pad) % pad

/-- A body codec plugged into the chained-item wrapper: `T`'s `BinWrite`
(which may depend on the absolute stream position, because of absolute
`align_before` padding) and `T`'s `BinRead` (returning the value and the
position after it). -/
structure BodyCodec (β : Type) where
  enc : Nat → β → Except EncodeError (List Nat)
  dec : List Nat → Nat → Except DecodeError (β × Nat)

namespace ChainedItem

/-- One `ChainedItem<T, OFFSET_PAD>` write
(`chained_list.rs`, the `#[binrw]` struct): a 4-byte `next_entry_offset`
`PosMarker` placeholder, the `T` body, and — only when the item is not the
last (`#[bw(if(!last))]`) — `align_before = OFFSET_PAD` padding followed by
the `PosMarker::write_roff` back-patch, which resolves the placeholder to
the offset of the next entry relative to this item's start.  The last item
keeps its zero placeholder. -/
def write_one {β : Type} (C : BodyCodec β) (pad start : Nat) (last : Bool) (b : β) :
    Except EncodeError (List Nat) := do
  let body ← C.enc (start + 4) b
  if last then
    pure (le32 0 ++ body)
  else
    let next := alignUp (start + 4 + body.length) pad
    if next - start < 2 ^ 32 then
      pure (le32 (next - start) ++ body ++ List.replicate (next - (start + 4 + body.length)) 0)
    else
      throw .encodingOverflow

/-- `ChainedItem::write_chained`: write each item, passing
`last = (i == len - 1)`. `start` is the absolute stream position of the
list's first byte. -/
def write_chained {β : Type} (C : BodyCodec β) (pad : Nat) :
    Nat → List β → Except EncodeError (List Nat)
  | _, [] => pure []
  | s, [b] => write_one C pad s true b
  | s, b :: rest => do
      let ib ← write_one C pad s false b
      let rb ← write_chained C pad (s + ib.length) rest
      pure (ib ++ rb)

/-- The loop of `ChainedItem::read_chained`: read the 4-byte
`next_entry_offset` (with the `#[br(assert(next_entry_offset.value %
OFFSET_PAD == 0))]` check), read the `T` body, then seek to
`item_start + next_entry_offset` (`PosMarker::seek_relative(false)`,
which for offset 0 resolves to the item's start, making
`position_before == stream_position` mark the last item).  `fuel`
strictly exceeds every possible iteration count when instantiated with
`buf.length + 1`, since each non-final iteration advances the item start
by at least one byte of a buffer it has to keep reading from. -/
def read_loop {β : Type} (C : BodyCodec β) (pad : Nat) (buf : List Nat) :
    Nat → Nat → Except DecodeError (List β)
  | 0, _ => throw .boundsViolation
  | fuel + 1, pos => do
      let off ← readU32 buf pos
      if off % pad = 0 then
        let r ← C.dec buf (pos + 4)
        if off = 0 then
          pure [r.1]
        else do
          let rest ← read_loop C pad buf fuel (pos + off)
          pure (r.1 :: rest)
      else
        throw .alignmentViolation

/-- `ChainedItem::read_chained`: an empty region (current position already
at stream end) yields the empty list without reading anything; otherwise
run the chain walk. -/
def read_chained {β : Type} (C : BodyCodec β) (pad : Nat) (buf : List Nat) (pos : Nat) :
    Except DecodeError (List β) :=
  if pos = buf.length then pure [] else read_loop C pad buf (buf.length + 1) pos

end ChainedItem

/-- A body type of fixed byte width `n` (the common case for fscc chained
records of fixed shape): its value is its `n` wire bytes. -/
def fixedCodec (n : Nat) : BodyCodec (List Nat) where
  enc := fun _ b => .ok b
  dec := fun buf pos => (readBytes buf pos n).map (fun s => (s, pos + n))

/-- A body codec is lawful for value `b` when decoding, in any surrounding
buffer, the bytes its encoder produced for `b` at the position they were
written (a position 4 bytes past an `OFFSET_PAD`-aligned item start)
returns `b` and ends exactly after those bytes. -/
def LawfulAt {β : Type} (C : BodyCodec β) (pad : Nat) (b : β) : Prop :=
  ∀ (buf pre post body : List Nat) (p : Nat),
    buf = pre ++ (body ++ post) →
    p = pre.length →
    p % pad = 4 % pad →
    C.enc p b = .ok body →
    ∃ q, C.dec buf p = .ok (b, q)

instance {ε α : Type} [DecidableEq ε] [DecidableEq α] : DecidableEq (Except ε α) := fun a b =>
  match a, b with
  | .ok x, .ok y =>
      if h : x = y then isTrue (by rw [h]) else isFalse (by simp [h])
  | .error x, .error y =>
      if h : x = y then isTrue (by rw [h]) else isFalse (by simp [h])
  | .ok _, .error _ => isFalse (by simp)
  | .error _, .ok _ => isFalse (by simp)

namespace SizedWideString

/-- Modelled from the spec: `SizedWideString`'s decoding of raw bytes into
2-byte code units (`smb-dtyp`'s `binrw_util` module, which is not among
the sources at hand).  Per §4.5, the wire holds fixed 2-byte little-endian
code units with no BOM and no null terminator. -/
def toUnits : List Nat → List Nat
  | b0 :: b1 :: rest => (b0 + 256 * b1) :: toUnits rest
  | _ => []

/-- Modelled from the spec: `SizedWideString` encoding writes each code
unit as 2 little-endian bytes (§4.5). -/
def encode : List Nat → List Nat
  | [] => []
  | u :: rest => le16 u ++ encode rest

/-- Modelled from the spec: `decode(stream, byte_length)` reads exactly
`byte_length` bytes and interprets them as 2-byte code units (§4.5). -/
def decode (buf : List Nat) (pos byteLen : Nat) : Except DecodeError (List Nat) :=
  (readBytes buf pos byteLen).map toUnits

/-- Modelled from the spec: `size()` reports the encoded byte count —
2 bytes per code unit (§4.5: the sibling length field is computed from
the final payload length). -/
def size (units : List Nat) : Nat := 2 * units.length

end SizedWideString

/-- Modelled from the spec: `OplockLevel` is one of the `#[brw(repr(u8))]`
closed enums of the message catalogue (its defining file is not among the
sources at hand); the MS-SMB2 2.2.13 oplock level codes are used.  An
unlisted wire byte fails decoding like every other repr-enum. -/
inductive OplockLevel where
  | none
  | ii
  | exclusive
  | batch
  | lease
deriving DecidableEq, Repr

/-- Wire code of an oplock level. -/
def OplockLevel.code : OplockLevel → Nat
  | .none => 0
  | .ii => 1
  | .exclusive => 8
  | .batch => 9
  | .lease => 0xFF

/-- Dispatch a wire byte to an oplock level. -/
def OplockLevel.ofCode (c : Nat) : Option OplockLevel :=
  if c = 0 then some .none
  else if c = 1 then some .ii
  else if c = 8 then some .exclusive
  else if c = 9 then some .batch
  else if c = 0xFF then some .lease
  else Option.none

/-- `ImpersonationLevel` (`create.rs`): `#[brw(repr(u32))]`. -/
inductive ImpersonationLevel where
  | anonymous
  | identification
  | impersonation
  | delegate
deriving DecidableEq, Repr

/-- Wire code of an impersonation level (`create.rs`). -/
def ImpersonationLevel.code : ImpersonationLevel → Nat
  | .anonymous => 0
  | .identification => 1
  | .impersonation => 2
  | .delegate => 3

/-- Dispatch a wire `u32` to an impersonation level. -/
def ImpersonationLevel.ofCode (c : Nat) : Option ImpersonationLevel :=
  if c = 0 then some .anonymous
  else if c = 1 then some .identification
  else if c = 2 then some .impersonation
  else if c = 3 then some .delegate
  else Option.none

/-- `CreateDisposition` (`create.rs`): `#[brw(repr(u32))]`. -/
inductive CreateDisposition where
  | superseded
  | dispOpen
  | create
  | openIf
  | overwrite
  | overwriteIf
deriving DecidableEq, Repr

/-- Wire code of a create disposition (`create.rs`). -/
def CreateDisposition.code : CreateDisposition → Nat
  | .superseded => 0
  | .dispOpen => 1
  | .create => 2
  | .openIf => 3
  | .overwrite => 4
  | .overwriteIf => 5

/-- Dispatch a wire `u32` to a create disposition. -/
def CreateDisposition.ofCode (c : Nat) : Option CreateDisposition :=
  if c = 0 then some .superseded
  else if c = 1 then some .dispOpen
  else if c = 2 then some .create
  else if c = 3 then some .openIf
  else if c = 4 then some .overwrite
  else if c = 5 then some .overwriteIf
  else Option.none

/-- Lift a dispatch-table lookup into the decode monad: a discriminant
with no matching variant is a decode failure. -/
def expectDisc {α : Type} : Option α → Except DecodeError α
  | some a => .ok a
  | Option.none => .error .unknownDiscriminant

/-- A create-context data payload codec: the tagged `T` of
`CreateContext<T>` in `create.rs`, dispatched by the context's name bytes
(the `#[br(import(name))]` + `#[br(pre_assert(name == ...))]` pattern).
`dec` receives the bounded data region, the dispatch name and the cursor. -/
structure CtxDataCodec (τ : Type) where
  nameOf : τ → List Nat
  enc : τ → Except EncodeError (List Nat)
  dec : List Nat → List Nat → Nat → Except DecodeError (τ × Nat)

/-- The value content of `CreateContext<T>` (`create.rs`): the context
name bytes and the tagged data payload. -/
structure CreateContext (τ : Type) where
  name : List Nat
  data : τ
deriving DecidableEq, Repr

namespace CreateContext

/-- `CreateContext<T>`'s `BinWrite` (`create.rs`), with the context record
starting at absolute stream position `start`: the 12-byte fixed header
(`_name_offset: PosMarker<u16>`, `name_length: u16` via
`u16::try_from(name.len()).unwrap()` — an `unwrap`, so an oversized name
panics —, `_reserved: u16` zero, `_data_offset: PosMarker<u16>`,
`_data_length: PosMarker<u32>`), then `align_before = 8` padding and the
name (patching `_name_offset` to `name position - start +
CHAINED_ITEM_PREFIX_SIZE`), then `align_before = 8` padding and the data
payload (patching `_data_offset` likewise and `_data_length` to the
payload byte count). -/
def write {τ : Type} (D : CtxDataCodec τ) (start : Nat) (c : CreateContext τ) :
    Except EncodeError (List Nat) := do
  if 2 ^ 16 ≤ c.name.length then throw .panicked else
  let namePos := alignUp (start + 12) 8
  if 2 ^ 16 ≤ namePos - start + 4 then throw .encodingOverflow else
  let data ← D.enc c.data
  let dataPos := alignUp (namePos + c.name.length) 8
  if 2 ^ 16 ≤ dataPos - start + 4 then throw .encodingOverflow else
  if 2 ^ 32 ≤ data.length then throw .encodingOverflow else
  pure (le16 (namePos - start + 4) ++ le16 c.name.length ++ le16 0
    ++ le16 (dataPos - start + 4) ++ le32 data.length
    ++ List.replicate (namePos - (start + 12)) 0 ++ c.name
    ++ List.replicate (dataPos - (namePos + c.name.length)) 0 ++ data)

/-- `CreateContext<T>`'s `BinRead` (`create.rs`): read the fixed header,
seek to `start + name_offset - CHAINED_ITEM_PREFIX_SIZE` and read
`name_length` name bytes, check `_data_offset.value % 8 == 0`, seek to
the data position only when `data_length > 0` (`seek_from_if`), and parse
the payload inside the `take_seek(data_length)` bounded region, dispatched
on the name.  An offset below the `CHAINED_ITEM_PREFIX_SIZE` it must
incorporate would make the `u64` subtraction in `seek_from` wrap to an
unreadable position, so it is modelled as a bounds failure. -/
def read {τ : Type} (D : CtxDataCodec τ) (buf : List Nat) (pos : Nat) :
    Except DecodeError (CreateContext τ × Nat) := do
  let noff ← readU16 buf pos
  let nlen ← readU16 buf (pos + 2)
  let _ ← readU16 buf (pos + 4)
  let doff ← readU16 buf (pos + 6)
  let dlen ← readU32 buf (pos + 8)
  if noff < 4 then throw .boundsViolation else
  let name ← readBytes buf (pos + noff - 4) nlen
  if doff % 8 ≠ 0 then throw .alignmentViolation else
  if 0 < dlen ∧ doff < 4 then throw .boundsViolation else
  let dataPos := if 0 < dlen then pos + doff - 4 else pos + noff - 4 + nlen
  let r ← D.dec (buf.take (dataPos + dlen)) name dataPos
  pure (⟨name, r.1⟩, r.2)

/-- The `BodyCodec` of a `CreateContext<T>` inside a
`ChainedItemList<CreateContext<T>, 8>`. -/
def codec {τ : Type} (D : CtxDataCodec τ) : BodyCodec (CreateContext τ) where
  enc := fun s c => write D s c
  dec := fun buf pos => read D buf pos

end CreateContext

/-- A create-context data codec is lawful for payload `d` when decoding
its encoding, placed at the end of the bounded data region it was written
into, returns `d` and consumes it exactly; the position is 8-aligned
whenever a payload was written (the `#[bw(align_before = 8)]` on `data`),
and the dispatch name is the one the payload writes. -/
def CtxLawfulAt {τ : Type} (D : CtxDataCodec τ) (d : τ) : Prop :=
  ∀ bytes, D.enc d = .ok bytes →
    ∀ (buf pre : List Nat) (p : Nat),
      buf = pre ++ bytes →
      p = pre.length →
      (bytes ≠ [] → p % 8 = 0) →
      D.dec buf (D.nameOf d) p = .ok (d, p + bytes.length)

/-- A body decoder is local when its result depends only on the region
length and the bytes from its start position on — it never inspects bytes
before its own start. -/
def DecLocal {β : Type} (C : BodyCodec β) : Prop :=
  ∀ (b₁ b₂ : List Nat) (p : Nat),
    b₁.length = b₂.length → b₁.drop p = b₂.drop p →
    C.dec b₁ p = C.dec b₂ p

/-- A create-context data decoder is local when its result depends only
on the region length and the bytes from its start position on. -/
def CtxDecLocal {τ : Type} (D : CtxDataCodec τ) : Prop :=
  ∀ (b₁ b₂ nm : List Nat) (p : Nat),
    b₁.length = b₂.length → b₁.drop p = b₂.drop p →
    D.dec b₁ nm p = D.dec b₂ nm p

/-- The in-memory SMB2 CREATE request (`create.rs`), parameterised over
the tagged create-context data type.  Fields of bitfield type
(`FileAccessMask`, `FileAttributes`, `ShareAccessFlags`, `CreateOptions`
— `modular_bitfield` 32-bit words accepting every bit pattern) are raw
32-bit words. -/
structure CreateRequest (τ : Type) where
  requested_oplock_level : OplockLevel
  impersonation_level : ImpersonationLevel
  desired_access : Nat
  file_attributes : Nat
  share_access : Nat
  create_disposition : CreateDisposition
  create_options : Nat
  name : List Nat
  contexts : List (CreateContext τ)
deriving DecidableEq, Repr

namespace CreateRequest

/-- The 44 bytes of fixed-width leading fields of a CREATE request
(`create.rs`): structure size 57, the reserved zero `_security_flags`,
oplock level, impersonation level, the reserved zero `_smb_create_flags`
and `_reserved`, then the four bitfield words and the disposition. -/
def fixedFields {τ : Type} (r : CreateRequest τ) : List Nat :=
  le16 57 ++ [0] ++ [r.requested_oplock_level.code]
    ++ le32 r.impersonation_level.code
    ++ le64 0 ++ le64 0
    ++ le32 r.desired_access ++ le32 r.file_attributes ++ le32 r.share_access
    ++ le32 r.create_disposition.code ++ le32 r.create_options

/-- `CreateRequest`'s `BinWrite` (`create.rs`), for a standalone buffer
(stream offset 0): fixed fields, the `_name_offset`/`name_length`
(`try_calc = name.size().try_into()`, failing with an overflow error for
a name of 2^16 or more bytes) and
`_create_contexts_offset`/`_create_contexts_length` marker fields, then
`align_before = 8` padding and the name (patching `_name_offset` with the
absolute name position, `PosMarker::write_aoff`), then `align_before = 8`
padding and the chained context list (patching offset and byte length,
`PosMarker::write_roff_size`). -/
def write {τ : Type} (D : CtxDataCodec τ) (r : CreateRequest τ) :
    Except EncodeError (List Nat) := do
  let nameBytes := SizedWideString.encode r.name
  if 2 ^ 16 ≤ nameBytes.length then throw .encodingOverflow else
  let namePos := alignUp 56 8
  let ctxPos := alignUp (namePos + nameBytes.length) 8
  let ctxBytes ← ChainedItem.write_chained (CreateContext.codec D) 8 ctxPos r.contexts
  if 2 ^ 16 ≤ namePos then throw .encodingOverflow else
  if 2 ^ 32 ≤ ctxPos then throw .encodingOverflow else
  if 2 ^ 32 ≤ ctxBytes.length then throw .encodingOverflow else
  pure (fixedFields r ++ le16 namePos ++ le16 nameBytes.length
    ++ le32 ctxPos ++ le32 ctxBytes.length
    ++ List.replicate (namePos - 56) 0 ++ nameBytes
    ++ List.replicate (ctxPos - (namePos + nameBytes.length)) 0 ++ ctxBytes)

/-- `CreateRequest`'s `BinRead` (`create.rs`), for a standalone buffer:
the structure-size assert (57), the zero asserts on `_security_flags` and
`_smb_create_flags`, the repr-enum dispatches, the discarded
`_name_offset`/`_create_contexts_offset` markers (`br(temp)`, never used
to seek on read), then `align_before = 8`, the sized name, `align_before
= 8`, and the chained context list inside the
`take_seek(_create_contexts_length)` bounded region. -/
def read {τ : Type} (D : CtxDataCodec τ) (buf : List Nat) :
    Except DecodeError (CreateRequest τ) := do
  let sz ← readU16 buf 0
  if sz ≠ 57 then throw .structuralViolation else
  let sf ← readU8 buf 2
  if sf ≠ 0 then throw .structuralViolation else
  let olc ← readU8 buf 3
  let ol ← expectDisc (OplockLevel.ofCode olc)
  let imc ← readU32 buf 4
  let imp ← expectDisc (ImpersonationLevel.ofCode imc)
  let scf ← readU64 buf 8
  if scf ≠ 0 then throw .structuralViolation else
  let _ ← readU64 buf 16
  let da ← readU32 buf 24
  let fa ← readU32 buf 28
  let sa ← readU32 buf 32
  let cdc ← readU32 buf 36
  let cd ← expectDisc (CreateDisposition.ofCode cdc)
  let co ← readU32 buf 40
  let _ ← readU16 buf 44
  let nlen ← readU16 buf 46
  let _ ← readU32 buf 48
  let clen ← readU32 buf 52
  let namePos := alignUp 56 8
  let name ← SizedWideString.decode buf namePos nlen
  let ctxPos := alignUp (namePos + nlen) 8
  let contexts ← ChainedItem.read_chained (CreateContext.codec D) 8
    (buf.take (ctxPos + clen)) ctxPos
  pure ⟨ol, imp, da, fa, sa, cd, co, name, contexts⟩

end CreateRequest

/-- The `b"DHnQ"` context name (`create.rs` `make_create_context!`). -/
def DHNQ_NAME : List Nat := [0x44, 0x48, 0x6e, 0x51]

/-- The `b"AlSi"` context name. -/
def ALSI_NAME : List Nat := [0x41, 0x6c, 0x53, 0x69]

/-- The `b"MxAc"` context name. -/
def MXAC_NAME : List Nat := [0x4d, 0x78, 0x41, 0x63]

/-- The `b"QFid"` context name. -/
def QFID_NAME : List Nat := [0x51, 0x46, 0x69, 0x64]

/-- The `b"DH2Q"` context name. -/
def DH2Q_NAME : List Nat := [0x44, 0x48, 0x32, 0x51]

/-- A concrete slice of the `CreateContextRequestData` tagged union
(`create.rs`), covering the variants whose payload types are fully given
by the sources at hand: `DurableHandleRequestV2` (`dh2q`; its `Guid` is
carried as its 16 wire bytes), `QueryMaximalAccessRequest` (`mxac`, whose
optional `FileTime` timestamp is a 64-bit word read only when the bounded
region still has data — `binread_if_has_data`), `QueryOnDiskIdReq`
(`qfid`, empty), `DurableHandleRequest` (`dhnq`, a reserved-zero `u128`)
and `AllocationSize` (`alsi`, a `u64`). -/
inductive CreateContextRequestData where
  | dh2qRequest (timeout : Nat) (flags : Nat) (create_guid : List Nat)
  | mxacRequest (timestamp : Option Nat)
  | qfidRequest
  | dhnqRequest
  | alsiRequest (allocation_size : Nat)
deriving DecidableEq, Repr

namespace CreateContextRequestData

/-- The context name each variant writes (`CONTEXT_NAME`). -/
def nameOf : CreateContextRequestData → List Nat
  | .dh2qRequest _ _ _ => DH2Q_NAME
  | .mxacRequest _ => MXAC_NAME
  | .qfidRequest => QFID_NAME
  | .dhnqRequest => DHNQ_NAME
  | .alsiRequest _ => ALSI_NAME

/-- `BinWrite` of each variant's payload (`create.rs` structs). -/
def enc : CreateContextRequestData → Except EncodeError (List Nat)
  | .dh2qRequest t f g => .ok (le32 t ++ le32 f ++ le64 0 ++ g)
  | .mxacRequest Option.none => .ok []
  | .mxacRequest (some t) => .ok (le64 t)
  | .qfidRequest => .ok []
  | .dhnqRequest => .ok (le128 0)
  | .alsiRequest v => .ok (le64 v)

/-- `BinRead` of the tagged union, dispatching on the context name
(`pre_assert(name.as_slice() == ...)`); an unmatched name is a decode
failure. -/
def dec (region : List Nat) (name : List Nat) (pos : Nat) :
    Except DecodeError (CreateContextRequestData × Nat) :=
  if name = DH2Q_NAME then do
    let t ← readU32 region pos
    let f ← readU32 region (pos + 4)
    let _ ← readU64 region (pos + 8)
    let g ← readBytes region (pos + 16) 16
    pure (.dh2qRequest t f g, pos + 32)
  else if name = MXAC_NAME then
    if pos = region.length then pure (.mxacRequest Option.none, pos)
    else do
      let t ← readU64 region pos
      pure (.mxacRequest (some t), pos + 8)
  else if name = QFID_NAME then pure (.qfidRequest, pos)
  else if name = DHNQ_NAME then do
    let v ← readU128 region pos
    if v ≠ 0 then throw .structuralViolation else pure (.dhnqRequest, pos + 16)
  else if name = ALSI_NAME then do
    let v ← readU64 region pos
    pure (.alsiRequest v, pos + 8)
  else throw .unknownDiscriminant

end CreateContextRequestData

/-- The concrete create-context request data codec assembled from the
variants above. -/
def requestCtxCodec : CtxDataCodec CreateContextRequestData where
  nameOf := CreateContextRequestData.nameOf
  enc := CreateContextRequestData.enc
  dec := CreateContextRequestData.dec

namespace Header

/-- Modelled from the spec: the fixed SMB2 message header size
(`Header::STRUCT_SIZE`; `header.rs` is not among the sources at hand).
Offsets inside a message are measured from the header start, which
occupies the first 64 bytes of the stream. -/
def STRUCT_SIZE : Nat := 64

end Header

/-- The SMB2 READ response (`file.rs`): its decoded content is the data
payload carried in `buffer`. -/
structure ReadResponse where
  buffer : List Nat
deriving DecidableEq, Repr

namespace ReadResponse

/-- `ReadResponse::STRUCT_SIZE` (`file.rs`). -/
def STRUCT_SIZE : Nat := 17

/-- `ReadResponse`'s `BinRead` (`file.rs`), with the response starting at
position `p` of a stream whose SMB header starts at 0: the structure-size
assert (17), the `_data_offset: PosMarker<u8>` with its sanity assert
`data_offset >= Header::STRUCT_SIZE + Self::STRUCT_SIZE - 1`, the
`_data_length > 0` assert, the `_data_remaining == 0` assert, the
discarded `_reserved`/`_reserved2`, then a seek to the absolute
`_data_offset` and a read of `_data_length` payload bytes. -/
def read (buf : List Nat) (p : Nat) : Except DecodeError ReadResponse := do
  let sz ← readU16 buf p
  if sz ≠ 17 then throw .structuralViolation else
  let doff ← readU8 buf (p + 2)
  if doff < Header.STRUCT_SIZE + STRUCT_SIZE - 1 then throw .structuralViolation else
  let _ ← readU8 buf (p + 3)
  let dlen ← readU32 buf (p + 4)
  if dlen = 0 then throw .structuralViolation else
  let drem ← readU32 buf (p + 8)
  if drem ≠ 0 then throw .structuralViolation else
  let _ ← readU32 buf (p + 12)
  let data ← readBytes buf doff dlen
  pure ⟨data⟩

/-- `ReadResponse`'s `BinWrite` (`file.rs`), at position `p`: the
`bw(assert(!buffer.is_empty()))` sanity check, the `u8` data-offset
marker patched by `PosMarker::write_aoff` with the absolute buffer
position (an encode overflow when it does not fit a byte), and
`_data_length` computed from the buffer by `try_calc`. -/
def write (r : ReadResponse) (p : Nat) : Except EncodeError (List Nat) := do
  if r.buffer = [] then throw .assertFail else
  if 2 ^ 8 ≤ p + 16 then throw .encodingOverflow else
  if 2 ^ 32 ≤ r.buffer.length then throw .encodingOverflow else
  pure (le16 17 ++ [p + 16] ++ [0] ++ le32 r.buffer.length ++ le32 0 ++ le32 0 ++ r.buffer)

end ReadResponse

/-- `HashAlgorithm` (`negotiate.rs`): `#[brw(repr(u16))]`. -/
inductive HashAlgorithm where
  | sha512
deriving DecidableEq, Repr

/-- Wire code of a hash algorithm. -/
def HashAlgorithm.code : HashAlgorithm → Nat
  | .sha512 => 1

/-- Dispatch a wire `u16` to a hash algorithm. -/
def HashAlgorithm.ofCode (c : Nat) : Option HashAlgorithm :=
  if c = 1 then some .sha512 else Option.none

/-- `EncryptionCipher` (`negotiate.rs`): `#[brw(repr(u16))]`. -/
inductive EncryptionCipher where
  | aes128Ccm
  | aes128Gcm
  | aes256Ccm
  | aes256Gcm
deriving DecidableEq, Repr

/-- Wire code of an encryption cipher. -/
def EncryptionCipher.code : EncryptionCipher → Nat
  | .aes128Ccm => 1
  | .aes128Gcm => 2
  | .aes256Ccm => 3
  | .aes256Gcm => 4

/-- Dispatch a wire `u16` to an encryption cipher. -/
def EncryptionCipher.ofCode (c : Nat) : Option EncryptionCipher :=
  if c = 1 then some .aes128Ccm
  else if c = 2 then some .aes128Gcm
  else if c = 3 then some .aes256Ccm
  else if c = 4 then some .aes256Gcm
  else Option.none

/-- `CompressionAlgorithm` (`negotiate.rs`): `#[brw(repr(u16))]`. -/
inductive CompressionAlgorithm where
  | none
  | lznt1
  | lz77
  | lz77Huffman
  | patternV1
  | lz4
deriving DecidableEq, Repr

/-- Wire code of a compression algorithm. -/
def CompressionAlgorithm.code : CompressionAlgorithm → Nat
  | .none => 0
  | .lznt1 => 1
  | .lz77 => 2
  | .lz77Huffman => 3
  | .patternV1 => 4
  | .lz4 => 5

/-- Dispatch a wire `u16` to a compression algorithm. -/
def CompressionAlgorithm.ofCode (c : Nat) : Option CompressionAlgorithm :=
  if c = 0 then some .none
  else if c = 1 then some .lznt1
  else if c = 2 then some .lz77
  else if c = 3 then some .lz77Huffman
  else if c = 4 then some .patternV1
  else if c = 5 then some .lz4
  else Option.none

/-- `RdmaTransformId` (`negotiate.rs`): `#[brw(repr(u16))]`. -/
inductive RdmaTransformId where
  | none
  | encryption
  | signing
deriving DecidableEq, Repr

/-- Wire code of an RDMA transform id. -/
def RdmaTransformId.code : RdmaTransformId → Nat
  | .none => 0
  | .encryption => 1
  | .signing => 2

/-- Dispatch a wire `u16` to an RDMA transform id. -/
def RdmaTransformId.ofCode (c : Nat) : Option RdmaTransformId :=
  if c = 0 then some .none
  else if c = 1 then some .encryption
  else if c = 2 then some .signing
  else Option.none

/-- `SigningAlgorithmId` (`negotiate.rs`): `#[brw(repr(u16))]`. -/
inductive SigningAlgorithmId where
  | hmacSha256
  | aesCmac
  | aesGmac
deriving DecidableEq, Repr

/-- Wire code of a signing algorithm id. -/
def SigningAlgorithmId.code : SigningAlgorithmId → Nat
  | .hmacSha256 => 0
  | .aesCmac => 1
  | .aesGmac => 2

/-- Dispatch a wire `u16` to a signing algorithm id. -/
def SigningAlgorithmId.ofCode (c : Nat) : Option SigningAlgorithmId :=
  if c = 0 then some .hmacSha256
  else if c = 1 then some .aesCmac
  else if c = 2 then some .aesGmac
  else Option.none

/-- Concatenated encodings of a list of elements. -/
def encList {α : Type} (f : α → List Nat) : List α → List Nat
  | [] => []
  | x :: rest => f x ++ encList f rest

/-- Read `n` consecutive elements with the element decoder `el`
(`#[br(count = n)]`). -/
def readN {α : Type} (el : List Nat → Nat → Except DecodeError (α × Nat)) (buf : List Nat) :
    Nat → Nat → Except DecodeError (List α × Nat)
  | 0, pos => .ok ([], pos)
  | n + 1, pos => do
      let r ← el buf pos
      let rest ← readN el buf n r.2
      pure (r.1 :: rest.1, rest.2)

/-- Read one 2-byte repr-enum element. -/
def readEnum16 {α : Type} (ofCode : Nat → Option α) (buf : List Nat) (pos : Nat) :
    Except DecodeError (α × Nat) := do
  let c ← readU16 buf pos
  let a ← expectDisc (ofCode c)
  pure (a, pos + 2)

/-- `PreauthIntegrityCapabilities` (`negotiate.rs`). -/
structure PreauthIntegrityCapabilities where
  hash_algorithms : List HashAlgorithm
  salt : List Nat
deriving DecidableEq, Repr

/-- `EncryptionCapabilities` (`negotiate.rs`). -/
structure EncryptionCapabilities where
  ciphers : List EncryptionCipher
deriving DecidableEq, Repr

/-- `CompressionCapabilities` (`negotiate.rs`); `flags` is the raw
`CompressionCapsFlags` 32-bit word. -/
structure CompressionCapabilities where
  flags : Nat
  compression_algorithms : List CompressionAlgorithm
deriving DecidableEq, Repr

/-- `NetnameNegotiateContextId` (`negotiate.rs`): a wide string read with
`until_eof` — it consumes the whole bounded context-data region. -/
structure NetnameNegotiateContextId where
  netname : List Nat
deriving DecidableEq, Repr

/-- `TransportCapabilities` (`negotiate.rs`): a raw 32-bit bitfield
word. -/
structure TransportCapabilities where
  flags : Nat
deriving DecidableEq, Repr

/-- `RdmaTransformCapabilities` (`negotiate.rs`). -/
structure RdmaTransformCapabilities where
  transforms : List RdmaTransformId
deriving DecidableEq, Repr

/-- `SigningCapabilities` (`negotiate.rs`). -/
structure SigningCapabilities where
  signing_algorithms : List SigningAlgorithmId
deriving DecidableEq, Repr

/-- `NegotiateContextType` (`negotiate.rs` `negotiate_context_type!`):
`#[brw(repr(u16))]`. -/
inductive NegotiateContextType where
  | preauthIntegrityCapabilities
  | encryptionCapabilities
  | compressionCapabilities
  | netnameNegotiateContextId
  | transportCapabilities
  | rdmaTransformCapabilities
  | signingCapabilities
deriving DecidableEq, Repr

/-- Wire code of a negotiate context type (`negotiate.rs`). -/
def NegotiateContextType.code : NegotiateContextType → Nat
  | .preauthIntegrityCapabilities => 0x0001
  | .encryptionCapabilities => 0x0002
  | .compressionCapabilities => 0x0003
  | .netnameNegotiateContextId => 0x0005
  | .transportCapabilities => 0x0006
  | .rdmaTransformCapabilities => 0x0007
  | .signingCapabilities => 0x0008

/-- Dispatch a wire `u16` to a negotiate context type. -/
def NegotiateContextType.ofCode (c : Nat) : Option NegotiateContextType :=
  if c = 1 then some .preauthIntegrityCapabilities
  else if c = 2 then some .encryptionCapabilities
  else if c = 3 then some .compressionCapabilities
  else if c = 5 then some .netnameNegotiateContextId
  else if c = 6 then some .transportCapabilities
  else if c = 7 then some .rdmaTransformCapabilities
  else if c = 8 then some .signingCapabilities
  else Option.none

/-- `NegotiateContextValue` (`negotiate.rs`): the tagged union of
negotiate context payloads, dispatched by the already-read
`context_type` (`#[br(import(context_type))]` + `pre_assert`). -/
inductive NegotiateContextValue where
  | preauthIntegrityCapabilities (v : PreauthIntegrityCapabilities)
  | encryptionCapabilities (v : EncryptionCapabilities)
  | compressionCapabilities (v : CompressionCapabilities)
  | netnameNegotiateContextId (v : NetnameNegotiateContextId)
  | transportCapabilities (v : TransportCapabilities)
  | rdmaTransformCapabilities (v : RdmaTransformCapabilities)
  | signingCapabilities (v : SigningCapabilities)
deriving DecidableEq, Repr

namespace NegotiateContextValue

/-- `NegotiateContextValue::get_matching_type` (`negotiate.rs`). -/
def get_matching_type : NegotiateContextValue → NegotiateContextType
  | .preauthIntegrityCapabilities _ => .preauthIntegrityCapabilities
  | .encryptionCapabilities _ => .encryptionCapabilities
  | .compressionCapabilities _ => .compressionCapabilities
  | .netnameNegotiateContextId _ => .netnameNegotiateContextId
  | .transportCapabilities _ => .transportCapabilities
  | .rdmaTransformCapabilities _ => .rdmaTransformCapabilities
  | .signingCapabilities _ => .signingCapabilities

/-- `BinWrite` of each negotiate-context payload (`negotiate.rs`), with
the `try_calc(u16::try_from(....len()))` count fields. -/
def write : NegotiateContextValue → Except EncodeError (List Nat)
  | .preauthIntegrityCapabilities v => do
      if 2 ^ 16 ≤ v.hash_algorithms.length then throw .encodingOverflow else
      if 2 ^ 16 ≤ v.salt.length then throw .encodingOverflow else
      pure (le16 v.hash_algorithms.length ++ le16 v.salt.length
        ++ encList (fun a => le16 a.code) v.hash_algorithms ++ v.salt)
  | .encryptionCapabilities v => do
      if 2 ^ 16 ≤ v.ciphers.length then throw .encodingOverflow else
      pure (le16 v.ciphers.length ++ encList (fun a => le16 a.code) v.ciphers)
  | .compressionCapabilities v => do
      if 2 ^ 16 ≤ v.compression_algorithms.length then throw .encodingOverflow else
      pure (le16 v.compression_algorithms.length ++ le16 0 ++ le32 v.flags
        ++ encList (fun a => le16 a.code) v.compression_algorithms)
  | .netnameNegotiateContextId v => pure (SizedWideString.encode v.netname)
  | .transportCapabilities v => pure (le32 v.flags)
  | .rdmaTransformCapabilities v => do
      if 2 ^ 16 ≤ v.transforms.length then throw .encodingOverflow else
      pure (le16 v.transforms.length ++ le16 0 ++ le32 0
        ++ encList (fun a => le16 a.code) v.transforms)
  | .signingCapabilities v => do
      if 2 ^ 16 ≤ v.signing_algorithms.length then throw .encodingOverflow else
      pure (le16 v.signing_algorithms.length
        ++ encList (fun a => le16 a.code) v.signing_algorithms)

/-- `BinRead` of a negotiate-context payload (`negotiate.rs`), inside the
`take_seek(data_length)` bounded region, dispatched on the context
type. -/
def read (t : NegotiateContextType) (region : List Nat) (pos : Nat) :
    Except DecodeError (NegotiateContextValue × Nat) :=
  match t with
  | .preauthIntegrityCapabilities => do
      let hc ← readU16 region pos
      let sl ← readU16 region (pos + 2)
      let algs ← readN (readEnum16 HashAlgorithm.ofCode) region hc (pos + 4)
      let salt ← readBytes region algs.2 sl
      pure (.preauthIntegrityCapabilities ⟨algs.1, salt⟩, algs.2 + sl)
  | .encryptionCapabilities => do
      let cc ← readU16 region pos
      let cs ← readN (readEnum16 EncryptionCipher.ofCode) region cc (pos + 2)
      pure (.encryptionCapabilities ⟨cs.1⟩, cs.2)
  | .compressionCapabilities => do
      let cc ← readU16 region pos
      let _ ← readU16 region (pos + 2)
      let fl ← readU32 region (pos + 4)
      let algs ← readN (readEnum16 CompressionAlgorithm.ofCode) region cc (pos + 8)
      pure (.compressionCapabilities ⟨fl, algs.1⟩, algs.2)
  | .netnameNegotiateContextId =>
      pure (.netnameNegotiateContextId ⟨SizedWideString.toUnits ((region.drop pos).take (region.length - pos))⟩,
        region.length)
  | .transportCapabilities => do
      let fl ← readU32 region pos
      pure (.transportCapabilities ⟨fl⟩, pos + 4)
  | .rdmaTransformCapabilities => do
      let tc ← readU16 region pos
      let _ ← readU16 region (pos + 2)
      let _ ← readU32 region (pos + 4)
      let ts ← readN (readEnum16 RdmaTransformId.ofCode) region tc (pos + 8)
      pure (.rdmaTransformCapabilities ⟨ts.1⟩, ts.2)
  | .signingCapabilities => do
      let sc ← readU16 region pos
      let ss ← readN (readEnum16 SigningAlgorithmId.ofCode) region sc (pos + 2)
      pure (.signingCapabilities ⟨ss.1⟩, ss.2)

end NegotiateContextValue

/-- `NegotiateContext` (`negotiate.rs`): the 8-aligned tagged wrapper of
a negotiate-context payload. -/
structure NegotiateContext where
  context_type : NegotiateContextType
  data : NegotiateContextValue
deriving DecidableEq, Repr

namespace NegotiateContext

/-- `NegotiateContext`'s `BinWrite` (`negotiate.rs`), starting at stream
position `s`: `align_before = 8` padding, the context type, the
`data_length: PosMarker<u16>` patched with the payload byte count
(`PosMarker::write_size`), a zero `_reserved: u32`, then the payload. -/
def write (c : NegotiateContext) (s : Nat) : Except EncodeError (List Nat) := do
  let payload ← c.data.write
  if 2 ^ 16 ≤ payload.length then throw .encodingOverflow else
  pure (List.replicate (alignUp s 8 - s) 0 ++ le16 c.context_type.code
    ++ le16 payload.length ++ le32 0 ++ payload)

/-- `NegotiateContext`'s `BinRead` (`negotiate.rs`): `align_before = 8`,
the context type dispatch, `data_length`, the discarded reserved word,
then the payload inside the `take_seek(data_length)` bounded region. -/
def read (buf : List Nat) (pos : Nat) : Except DecodeError (NegotiateContext × Nat) := do
  let q := alignUp pos 8
  let tc ← readU16 buf q
  let t ← expectDisc (NegotiateContextType.ofCode tc)
  let dlen ← readU16 buf (q + 2)
  let _ ← readU32 buf (q + 4)
  let r ← NegotiateContextValue.read t (buf.take (q + 8 + dlen)) (q + 8)
  pure (⟨t, r.1⟩, r.2)

end NegotiateContext

/-- Typing-level validity of a create-context payload value in the
concrete codec: the Rust field types bound every numeric field, and a
`Guid` occupies exactly 16 wire bytes. -/
def CreateContextRequestData.Valid : CreateContextRequestData → Prop
  | .dh2qRequest t f g => t < 2 ^ 32 ∧ f < 2 ^ 32 ∧ g.length = 16
  | .mxacRequest (some t) => t < 2 ^ 64
  | .alsiRequest v => v < 2 ^ 64
  | _ => True

/-- Typing-level validity of a negotiate-context payload value: the Rust
field types bound the bitfield words and the wide-string code units. -/
def NegotiateContextValue.Valid : NegotiateContextValue → Prop
  | .compressionCapabilities v => v.flags < 2 ^ 32
  | .netnameNegotiateContextId v => ∀ u ∈ v.netname, u < 2 ^ 16
  | .transportCapabilities v => v.flags < 2 ^ 32
  | _ => True

/-- Typing-level validity of a CREATE request value: the four bitfield
words are 32-bit, the name's code units are 16-bit. -/
def CreateRequest.Valid {τ : Type} (r : CreateRequest τ) : Prop :=
  r.desired_access < 2 ^ 32 ∧ r.file_attributes < 2 ^ 32 ∧ r.share_access < 2 ^ 32 ∧
    r.create_options < 2 ^ 32 ∧ ∀ u ∈ r.name, u < 2 ^ 16

/-- The CREATE request of the repository's own `test_request!` vector in
`create.rs` (name `"hello"`, contexts `DH2Q`, `MxAc`, `QFid`). -/
def testCreateRequest : CreateRequest CreateContextRequestData where
  requested_oplock_level := .none
  impersonation_level := .impersonation
  desired_access := 0x00100081
  file_attributes := 0
  share_access := 7
  create_disposition := .dispOpen
  create_options := 0x00020020
  name := [0x68, 0x65, 0x6c, 0x6c, 0x6f]
  contexts :=
    [⟨DH2Q_NAME, .dh2qRequest 0 0
        [0x20, 0xa3, 0x79, 0xc6, 0xa0, 0xc0, 0xef, 0x11, 0x8b, 0x7b, 0x00, 0x0c, 0x29, 0x80, 0x16, 0x82]⟩,
      ⟨MXAC_NAME, .mxacRequest Option.none⟩,
      ⟨QFID_NAME, .qfidRequest⟩]

/-- The wire bytes of the repository's `create.rs` `test_request!` vector,
with the two stream-absolute offset fields (`_name_offset`,
`_create_contexts_offset`) shifted by the 64-byte header the test writes
before the request (120 → 56, 136 → 72), since this model encodes the
request standalone at stream offset 0.  Every other byte is verbatim from
the repository test. -/
def createRequestTestBytes : List Nat :=
  [57, 0, 0, 0, 2, 0, 0, 0, 0, 0, 0, 0, 0, 0, 0, 0, 0, 0, 0, 0, 0, 0, 0, 0,
   129, 0, 16, 0, 0, 0, 0, 0, 7, 0, 0, 0, 1, 0, 0, 0, 32, 0, 2, 0, 56, 0, 10, 0,
   72, 0, 0, 0, 104, 0, 0, 0, 104, 0, 101, 0, 108, 0, 108, 0, 111, 0, 0, 0, 0, 0, 0, 0,
   56, 0, 0, 0, 16, 0, 4, 0, 0, 0, 24, 0, 32, 0, 0, 0, 68, 72, 50, 81, 0, 0, 0, 0,
   0, 0, 0, 0, 0, 0, 0, 0, 0, 0, 0, 0, 0, 0, 0, 0, 32, 163, 121, 198, 160, 192, 239, 17,
   139, 123, 0, 12, 41, 128, 22, 130, 24, 0, 0, 0, 16, 0, 4, 0, 0, 0, 24, 0, 0, 0, 0, 0,
   77, 120, 65, 99, 0, 0, 0, 0, 0, 0, 0, 0, 16, 0, 4, 0, 0, 0, 24, 0, 0, 0, 0, 0,
   81, 70, 105, 100, 0, 0, 0, 0]

/-- A sample negotiate context: preauth integrity capabilities with one
hash algorithm and a 4-byte salt. -/
def testNegotiateContext : NegotiateContext where
  context_type := .preauthIntegrityCapabilities
  data := .preauthIntegrityCapabilities ⟨[.sha512], [0xed, 0x00, 0x6c, 0x30]⟩

section Lemmas

variable {β : Type}

@[simp] theorem le16_length (v : Nat) : (le16 v).length = 2 := rfl

@[simp] theorem le32_length (v : Nat) : (le32 v).length = 4 := rfl

@[simp] theorem le64_length (v : Nat) : (le64 v).length = 8 := rfl

@[simp] theorem le128_length (v : Nat) : (le128 v).length = 16 := rfl

theorem valLE_le16 {v : Nat} (h : v < 2 ^ 16) : valLE (le16 v) = v := by
  simp only [le16, valLE]
  omega

theorem valLE_le32 {v : Nat} (h : v < 2 ^ 32) : valLE (le32 v) = v := by
  simp only [le32, valLE]
  omega

theorem valLE_le64 {v : Nat} (h : v < 2 ^ 64) : valLE (le64 v) = v := by
  simp only [le64, le32, valLE, List.append_eq, List.cons_append, List.nil_append]
  omega

theorem valLE_le128 {v : Nat} (h : v < 2 ^ 128) : valLE (le128 v) = v := by
  simp only [le128, le64, le32, valLE, List.append_eq, List.cons_append, List.nil_append]
  omega

theorem readBytes_append (pre mid post : List Nat) :
    readBytes (pre ++ mid ++ post) pre.length mid.length = .ok mid := by
  unfold readBytes
  rw [if_pos (by simp)]
  rw [List.append_assoc, List.drop_left, List.take_left]

theorem readBytes_append_of_eq (pre mid post : List Nat) {p n : Nat}
    (hp : p = pre.length) (hn : n = mid.length) :
    readBytes (pre ++ mid ++ post) p n = .ok mid := by
  rw [hp, hn]; exact readBytes_append pre mid post

theorem readBytes_parts {B A m Z : List Nat} {p n : Nat}
    (hbuf : B = A ++ (m ++ Z)) (hp : p = A.length) (hn : n = m.length) :
    readBytes B p n = .ok m := by
  subst hbuf hp hn
  have h := readBytes_append A m Z
  rwa [List.append_assoc] at h

theorem readU8_parts {B A Z : List Nat} {b p : Nat}
    (hbuf : B = A ++ ([b] ++ Z)) (hp : p = A.length) :
    readU8 B p = .ok b := by
  unfold readU8
  rw [readBytes_parts hbuf hp (show (1 : Nat) = [b].length from rfl)]
  simp [valLE, Except.map]

theorem readU16_parts {B A Z : List Nat} {v p : Nat}
    (hbuf : B = A ++ (le16 v ++ Z)) (hp : p = A.length) (hv : v < 2 ^ 16) :
    readU16 B p = .ok v := by
  unfold readU16
  rw [readBytes_parts hbuf hp (le16_length v).symm]
  simp [Except.map, valLE_le16 hv]

theorem readU32_parts {B A Z : List Nat} {v p : Nat}
    (hbuf : B = A ++ (le32 v ++ Z)) (hp : p = A.length) (hv : v < 2 ^ 32) :
    readU32 B p = .ok v := by
  unfold readU32
  rw [readBytes_parts hbuf hp (le32_length v).symm]
  simp [Except.map, valLE_le32 hv]

theorem readU64_parts {B A Z : List Nat} {v p : Nat}
    (hbuf : B = A ++ (le64 v ++ Z)) (hp : p = A.length) (hv : v < 2 ^ 64) :
    readU64 B p = .ok v := by
  unfold readU64
  rw [readBytes_parts hbuf hp (le64_length v).symm]
  simp [Except.map, valLE_le64 hv]

theorem readU128_parts {B A Z : List Nat} {v p : Nat}
    (hbuf : B = A ++ (le128 v ++ Z)) (hp : p = A.length) (hv : v < 2 ^ 128) :
    readU128 B p = .ok v := by
  unfold readU128
  rw [readBytes_parts hbuf hp (le128_length v).symm]
  simp [Except.map, valLE_le128 hv]

theorem le_alignUp (n pad : Nat) : n ≤ alignUp n pad := Nat.le_add_right _ _

theorem alignUp_mod {pad : Nat} (hp : 0 < pad) (n : Nat) : alignUp n pad % pad = 0 := by
  unfold alignUp
  rcases Nat.eq_zero_or_pos (n % pad) with h | h
  · simp [h]
  · have h1 : n % pad < pad := Nat.mod_lt _ hp
    have h2 : (pad - n % pad) % pad = pad - n % pad := Nat.mod_eq_of_lt (by omega)
    rw [h2]
    have h3 := Nat.div_add_mod n pad
    have h4 : n + (pad - n % pad) = pad * (n / pad + 1) := by rw [Nat.mul_succ]; omega
    rw [h4]
    exact Nat.mul_mod_right pad _

theorem alignUp_of_mod {pad n : Nat} (h : n % pad = 0) : alignUp n pad = n := by
  unfold alignUp
  rcases Nat.eq_zero_or_pos pad with hp | hp
  · subst hp; simp
  · simp [h]

theorem alignUp_lt {pad : Nat} (hp : 0 < pad) (n : Nat) : alignUp n pad < n + pad := by
  unfold alignUp
  have : (pad - n % pad) % pad < pad := Nat.mod_lt _ hp
  omega

theorem sub_mod_zero {p a b : Nat} (ha : a % p = 0) (hb : b % p = 0) : (a - b) % p = 0 := by
  rcases Nat.eq_zero_or_pos p with hp | hp
  · subst hp; simp at ha hb; omega
  · exact Nat.mod_eq_zero_of_dvd
      (Nat.dvd_sub' (Nat.dvd_of_mod_eq_zero ha) (Nat.dvd_of_mod_eq_zero hb))

@[simp] theorem ok_bind {ε α γ : Type} (a : α) (f : α → Except ε γ) :
    (Except.ok a >>= f) = f a := rfl

@[simp] theorem error_bind {ε α γ : Type} (e : ε) (f : α → Except ε γ) :
    ((Except.error e : Except ε α) >>= f) = Except.error e := rfl

@[simp] theorem pure_eq_ok {ε α : Type} (a : α) : (pure a : Except ε α) = Except.ok a := rfl

@[simp] theorem throw_eq_error {ε α : Type} (e : ε) : (throw e : Except ε α) = Except.error e := rfl

/-- Every chained item occupies at least its 4-byte offset field. -/
theorem write_one_length {C : BodyCodec β} {pad s : Nat} {last : Bool} {b : β} {ib : List Nat}
    (h : ChainedItem.write_one C pad s last b = .ok ib) : 4 ≤ ib.length := by
  unfold ChainedItem.write_one at h
  cases henc : C.enc (s + 4) b with
  | error e => rw [henc] at h; simp at h
  | ok body =>
    rw [henc] at h
    simp only [ok_bind] at h
    cases last with
    | true => simp at h; simp [← h]
    | false =>
      simp only [Bool.false_eq_true, if_false] at h
      split at h
      · simp at h; simp [← h]
      · simp at h

/-- A written chain is at least as long (in bytes) as its item count. -/
theorem write_chained_length {C : BodyCodec β} {pad : Nat} :
    ∀ {l : List β} {s : Nat} {bytes : List Nat},
      ChainedItem.write_chained C pad s l = .ok bytes → l.length ≤ bytes.length
  | [], _, _, h => by
      simp [ChainedItem.write_chained] at h
      simp [← h]
  | [b], s, bytes, h => by
      simp only [ChainedItem.write_chained] at h
      have h4 : 4 ≤ bytes.length := write_one_length h
      simp
      omega
  | b :: r :: rs, s, bytes, h => by
      simp only [ChainedItem.write_chained] at h
      cases hib : ChainedItem.write_one C pad s false b with
      | error e => rw [hib] at h; simp at h
      | ok ib =>
        rw [hib] at h
        simp only [ok_bind] at h
        cases hrb : ChainedItem.write_chained C pad (s + ib.length) (r :: rs) with
        | error e => rw [hrb] at h; simp at h
        | ok rb =>
          rw [hrb] at h
          simp at h
          have h1 : 4 ≤ ib.length := write_one_length hib
          have h2 : (r :: rs).length ≤ rb.length := write_chained_length hrb
          simp [← h]
          simp at h2
          omega

/-- Walking the chain read loop over a freshly written non-empty chain
recovers exactly the written items (the loop half of the round trip). -/
theorem read_loop_write_chained (C : BodyCodec β) {pad : Nat} (hpad : 0 < pad) :
    ∀ (l : List β) (pre bytes : List Nat) (fuel : Nat),
      l ≠ [] → l.length ≤ fuel →
      pre.length % pad = 0 →
      (∀ b ∈ l, LawfulAt C pad b) →
      ChainedItem.write_chained C pad pre.length l = .ok bytes →
      ChainedItem.read_loop C pad (pre ++ bytes) fuel pre.length = .ok l := by
  intro l
  induction l with
  | nil => intro pre bytes fuel hne; exact absurd rfl hne
  | cons b rest ih =>
    intro pre bytes fuel _ hfuel hpre hlaw hw
    have hlawb : LawfulAt C pad b := hlaw b (List.mem_cons_self b rest)
    obtain ⟨f, rfl⟩ : ∃ f, fuel = f + 1 := by
      cases fuel with
      | zero => simp at hfuel
      | succ f => exact ⟨f, rfl⟩
    cases rest with
    | nil =>
      simp only [ChainedItem.write_chained, ChainedItem.write_one] at hw
      cases henc : C.enc (pre.length + 4) b with
      | error e => rw [henc] at hw; simp at hw
      | ok body =>
        rw [henc] at hw
        simp only [ok_bind, if_true, pure_eq_ok, Except.ok.injEq] at hw
        subst hw
        simp only [ChainedItem.read_loop]
        rw [readU32_parts (B := pre ++ (le32 0 ++ body)) (A := pre)
          (Z := body) rfl rfl (by norm_num)]
        simp only [ok_bind, Nat.zero_mod, if_true, reduceIte]
        have hmod : (pre.length + 4) % pad = 4 % pad := by
          rw [Nat.add_mod, hpre, Nat.zero_add, Nat.mod_mod_of_dvd 4 (dvd_refl pad)]
        obtain ⟨q, hq⟩ := hlawb (pre ++ (le32 0 ++ body)) (pre ++ le32 0) [] body
          (pre.length + 4) (by simp) (by simp) hmod henc
        rw [hq]
        simp
    | cons r rs =>
      simp only [ChainedItem.write_chained] at hw
      cases hib : ChainedItem.write_one C pad pre.length false b with
      | error e => rw [hib] at hw; simp at hw
      | ok ib =>
        rw [hib] at hw
        simp only [ok_bind] at hw
        cases hrb : ChainedItem.write_chained C pad (pre.length + ib.length) (r :: rs) with
        | error e => rw [hrb] at hw; simp at hw
        | ok rb =>
          rw [hrb] at hw
          simp only [ok_bind, pure_eq_ok, Except.ok.injEq] at hw
          subst hw
          -- dissect the non-last item
          unfold ChainedItem.write_one at hib
          cases henc : C.enc (pre.length + 4) b with
          | error e => rw [henc] at hib; simp at hib
          | ok body =>
            rw [henc] at hib
            simp only [ok_bind, Bool.false_eq_true, if_false] at hib
            split at hib
            case isFalse => simp at hib
            case isTrue hov =>
            simp only [pure_eq_ok, Except.ok.injEq] at hib
            have hle : pre.length + 4 + body.length ≤
                alignUp (pre.length + 4 + body.length) pad := le_alignUp _ _
            have hnextmod : alignUp (pre.length + 4 + body.length) pad % pad = 0 :=
              alignUp_mod hpad _
            set next := alignUp (pre.length + 4 + body.length) pad with hnextdef
            set off := next - pre.length with hoffdef
            have hoffmod : off % pad = 0 := sub_mod_zero hnextmod hpre
            have hoffpos : 4 ≤ off := by omega
            have hibdef : ib = le32 off ++ (body ++ List.replicate (next - (pre.length + 4 + body.length)) 0) := by
              rw [← hib]; simp [List.append_assoc]
            have hiblen : ib.length = off := by
              rw [hibdef]; simp; omega
            simp only [ChainedItem.read_loop]
            rw [readU32_parts (B := pre ++ (ib ++ rb)) (A := pre)
              (Z := body ++ List.replicate (next - (pre.length + 4 + body.length)) 0 ++ rb)
              (by rw [hibdef]; simp [List.append_assoc]) rfl hov]
            simp only [ok_bind, hoffmod, reduceIte]
            have hmod : (pre.length + 4) % pad = 4 % pad := by
              rw [Nat.add_mod, hpre, Nat.zero_add, Nat.mod_mod_of_dvd 4 (dvd_refl pad)]
            obtain ⟨q, hq⟩ := hlawb (pre ++ (ib ++ rb)) (pre ++ le32 off)
              (List.replicate (next - (pre.length + 4 + body.length)) 0 ++ rb) body
              (pre.length + 4)
              (by rw [hibdef]; simp [List.append_assoc]) (by simp) hmod henc
            rw [hq]
            simp only [ok_bind]
            rw [if_neg (by omega)]
            have hrec := ih (pre ++ ib) rb f (by simp) (by simp at hfuel ⊢; omega)
              (by simp [List.length_append, Nat.add_mod, hpre, hiblen, hoffmod])
              (fun x hx => hlaw x (List.mem_cons_of_mem b hx))
              (by simpa using hrb)
            have hpos : pre.length + off = (pre ++ ib).length := by
              simp [hiblen]
            rw [show pre ++ (ib ++ rb) = (pre ++ ib) ++ rb by simp, hpos, hrec]
            simp

/-- `read_chained` inverts `write_chained` for every item list (the spec's
round-trip law for chained lists), at every `pad`-aligned start position. -/
theorem read_write_chained (C : BodyCodec β) {pad : Nat} (hpad : 0 < pad)
    (l : List β) (pre bytes : List Nat)
    (hpre : pre.length % pad = 0)
    (hlaw : ∀ b ∈ l, LawfulAt C pad b)
    (hw : ChainedItem.write_chained C pad pre.length l = .ok bytes) :
    ChainedItem.read_chained C pad (pre ++ bytes) pre.length = .ok l := by
  cases l with
  | nil =>
    simp only [ChainedItem.write_chained, pure_eq_ok, Except.ok.injEq] at hw
    subst hw
    simp [ChainedItem.read_chained]
  | cons b rest =>
    have hlen : (b :: rest).length ≤ bytes.length := write_chained_length hw
    have hbl : 0 < bytes.length := by simp at hlen; omega
    unfold ChainedItem.read_chained
    rw [if_neg (by simp only [List.length_append]; omega)]
    exact read_loop_write_chained C hpad (b :: rest) pre bytes _ (by simp)
      (by simp [List.length_append] at hlen ⊢; omega) hpre hlaw hw

/-- A fixed-width body of the declared width is lawful at every pad. -/
theorem fixedCodec_lawfulAt {n : Nat} {b : List Nat} (hb : b.length = n) (pad : Nat) :
    LawfulAt (fixedCodec n) pad b := by
  intro buf pre post body p hbuf hp _ henc
  simp only [fixedCodec, Except.ok.injEq] at henc
  subst henc
  refine ⟨p + n, ?_⟩
  simp only [fixedCodec]
  rw [readBytes_parts hbuf hp hb.symm]
  simp [Except.map, hb]

@[simp] theorem oplock_ofCode_code (o : OplockLevel) : OplockLevel.ofCode o.code = some o := by
  cases o <;> rfl

theorem oplock_code_lt (o : OplockLevel) : o.code < 256 := by
  cases o <;> decide

@[simp] theorem impersonation_ofCode_code (o : ImpersonationLevel) :
    ImpersonationLevel.ofCode o.code = some o := by
  cases o <;> rfl

theorem impersonation_code_lt (o : ImpersonationLevel) : o.code < 2 ^ 32 := by
  cases o <;> decide

@[simp] theorem disposition_ofCode_code (o : CreateDisposition) :
    CreateDisposition.ofCode o.code = some o := by
  cases o <;> rfl

theorem disposition_code_lt (o : CreateDisposition) : o.code < 2 ^ 32 := by
  cases o <;> decide

@[simp] theorem hashAlg_ofCode_code (o : HashAlgorithm) :
    HashAlgorithm.ofCode o.code = some o := by
  cases o <;> rfl

theorem hashAlg_code_lt (o : HashAlgorithm) : o.code < 2 ^ 16 := by
  cases o <;> decide

@[simp] theorem cipher_ofCode_code (o : EncryptionCipher) :
    EncryptionCipher.ofCode o.code = some o := by
  cases o <;> rfl

theorem cipher_code_lt (o : EncryptionCipher) : o.code < 2 ^ 16 := by
  cases o <;> decide

@[simp] theorem compressionAlg_ofCode_code (o : CompressionAlgorithm) :
    CompressionAlgorithm.ofCode o.code = some o := by
  cases o <;> rfl

theorem compressionAlg_code_lt (o : CompressionAlgorithm) : o.code < 2 ^ 16 := by
  cases o <;> decide

@[simp] theorem rdma_ofCode_code (o : RdmaTransformId) :
    RdmaTransformId.ofCode o.code = some o := by
  cases o <;> rfl

theorem rdma_code_lt (o : RdmaTransformId) : o.code < 2 ^ 16 := by
  cases o <;> decide

@[simp] theorem signing_ofCode_code (o : SigningAlgorithmId) :
    SigningAlgorithmId.ofCode o.code = some o := by
  cases o <;> rfl

theorem signing_code_lt (o : SigningAlgorithmId) : o.code < 2 ^ 16 := by
  cases o <;> decide

@[simp] theorem negotiateType_ofCode_code (o : NegotiateContextType) :
    NegotiateContextType.ofCode o.code = some o := by
  cases o <;> rfl

theorem negotiateType_code_lt (o : NegotiateContextType) : o.code < 2 ^ 16 := by
  cases o <;> decide

@[simp] theorem expectDisc_some {α : Type} (a : α) : expectDisc (some a) = .ok a := rfl

/-- Taking exactly through the middle chunk of a three-part append. -/
theorem take_append_exact (x y z : List Nat) {k : Nat} (hk : k = x.length + y.length) :
    (x ++ (y ++ z)).take k = x ++ y := by
  subst hk
  rw [← List.length_append, ← List.append_assoc, List.take_left]

@[simp] theorem SizedWideString.encode_length (units : List Nat) :
    (SizedWideString.encode units).length = 2 * units.length := by
  induction units with
  | nil => rfl
  | cons u rest ih => simp [SizedWideString.encode, ih]; omega

theorem SizedWideString.toUnits_encode {units : List Nat} (h : ∀ u ∈ units, u < 2 ^ 16) :
    SizedWideString.toUnits (SizedWideString.encode units) = units := by
  induction units with
  | nil => rfl
  | cons u rest ih =>
    have hu : u < 2 ^ 16 := h u (List.mem_cons_self u rest)
    have hstep : SizedWideString.toUnits (SizedWideString.encode (u :: rest)) =
        (u % 256 + 256 * (u / 256 % 256)) :: SizedWideString.toUnits (SizedWideString.encode rest) := rfl
    rw [hstep, ih (fun x hx => h x (List.mem_cons_of_mem u hx))]
    congr 1
    omega

theorem SizedWideString.toUnits_length (s : List Nat) :
    (SizedWideString.toUnits s).length = s.length / 2 := by
  induction s using SizedWideString.toUnits.induct with
  | case1 b0 b1 rest ih => simp [SizedWideString.toUnits, ih]; omega
  | case2 s h => cases s with
    | nil => rfl
    | cons a t =>
      cases t with
      | nil => simp [SizedWideString.toUnits]
      | cons b u => exact absurd rfl (h a b u)

theorem SizedWideString.encode_toUnits {s : List Nat}
    (heven : s.length % 2 = 0) (hbytes : ∀ b ∈ s, b < 256) :
    SizedWideString.encode (SizedWideString.toUnits s) = s := by
  induction s using SizedWideString.toUnits.induct with
  | case1 b0 b1 rest ih =>
    have h0 : b0 < 256 := hbytes b0 (by simp)
    have h1 : b1 < 256 := hbytes b1 (by simp)
    have hstep : SizedWideString.encode (SizedWideString.toUnits (b0 :: b1 :: rest)) =
        le16 (b0 + 256 * b1) ++ SizedWideString.encode (SizedWideString.toUnits rest) := rfl
    rw [hstep, ih (by simp at heven ⊢; omega) (fun x hx => hbytes x (by simp [hx]))]
    simp only [le16]
    have e0 : (b0 + 256 * b1) % 256 = b0 := by omega
    have e1 : (b0 + 256 * b1) / 256 % 256 = b1 := by omega
    rw [e0, e1]
    rfl
  | case2 s h => cases s with
    | nil => rfl
    | cons a t =>
      cases t with
      | nil => simp at heven
      | cons b u => exact absurd rfl (h a b u)

/-- Decoding a sized wide string out of its freshly written bytes. -/
theorem SizedWideString.decode_parts {B A Z u : List Nat} {p n : Nat}
    (hbuf : B = A ++ (SizedWideString.encode u ++ Z))
    (hp : p = A.length) (hn : n = 2 * u.length)
    (hunits : ∀ x ∈ u, x < 2 ^ 16) :
    SizedWideString.decode B p n = .ok u := by
  unfold SizedWideString.decode
  rw [readBytes_parts hbuf hp (by simp [hn])]
  simp [Except.map, SizedWideString.toUnits_encode hunits]

/-- Reading `n` 2-byte repr-enum elements out of their freshly written
bytes. -/
theorem readN_enum16 {α : Type} (code : α → Nat) (ofCode : Nat → Option α)
    (hinv : ∀ x, ofCode (code x) = some x) (hlt : ∀ x, code x < 2 ^ 16) :
    ∀ (xs : List α) (buf pre post : List Nat) (p : Nat),
      buf = pre ++ (encList (fun a => le16 (code a)) xs ++ post) →
      p = pre.length →
      readN (readEnum16 ofCode) buf xs.length p = .ok (xs, p + 2 * xs.length) := by
  intro xs
  induction xs with
  | nil => intro buf pre post p _ _; simp [readN]
  | cons x rest ih =>
    intro buf pre post p hbuf hp
    simp only [List.length_cons, readN, readEnum16]
    rw [readU16_parts (A := pre)
      (Z := encList (fun a => le16 (code a)) rest ++ post)
      (by rw [hbuf]; simp [encList, List.append_assoc]) hp (hlt x)]
    simp only [ok_bind, hinv x, expectDisc_some, pure_eq_ok]
    rw [ih buf (pre ++ le16 (code x)) post (p + 2)
      (by rw [hbuf]; simp [encList, List.append_assoc]) (by simp [hp])]
    have : p + 2 + 2 * rest.length = p + 2 * (rest.length + 1) := by omega
    rw [this]
    rfl

@[simp] theorem encList_enum16_length {α : Type} (g : α → Nat) (xs : List α) :
    (encList (fun a => le16 (g a)) xs).length = 2 * xs.length := by
  induction xs with
  | nil => rfl
  | cons x r ih => simp [encList, ih]; omega

/-- Reading a freshly written negotiate-context payload back, inside the
exactly bounded data region, recovers the payload. -/
theorem negotiateValue_read_write (v : NegotiateContextValue) (hv : v.Valid)
    {bytes : List Nat} (hw : v.write = .ok bytes) (pre : List Nat) {p : Nat}
    (hp : p = pre.length) :
    NegotiateContextValue.read v.get_matching_type (pre ++ bytes) p = .ok (v, p + bytes.length) := by
  cases v with
  | preauthIntegrityCapabilities w =>
    obtain ⟨algs, salt⟩ := w
    simp only [NegotiateContextValue.write] at hw
    split at hw
    · simp at hw
    split at hw
    · simp at hw
    case isFalse h1 h2 =>
    simp only [pure_eq_ok, Except.ok.injEq] at hw
    subst hw
    simp only [NegotiateContextValue.get_matching_type, NegotiateContextValue.read]
    rw [readU16_parts (v := algs.length) (A := pre)
      (Z := le16 salt.length ++ (encList (fun a => le16 a.code) algs ++ salt))
      (by simp [List.append_assoc]) hp (by omega)]
    simp only [ok_bind]
    rw [readU16_parts (v := salt.length) (A := pre ++ le16 algs.length)
      (Z := encList (fun a => le16 a.code) algs ++ salt)
      (by simp [List.append_assoc]) (by simp [hp]) (by omega)]
    simp only [ok_bind]
    rw [readN_enum16 HashAlgorithm.code HashAlgorithm.ofCode hashAlg_ofCode_code
      hashAlg_code_lt algs _ (pre ++ le16 algs.length ++ le16 salt.length) salt (p + 4)
      (by simp [List.append_assoc]) (by simp [hp])]
    simp only [ok_bind]
    rw [readBytes_parts (m := salt) (A := pre ++ le16 algs.length ++ le16 salt.length
        ++ encList (fun a => le16 a.code) algs) (Z := [])
      (by simp [List.append_assoc]) ?hpos rfl]
    case hpos =>
      simp [hp, encList_enum16_length]
      omega
    simp only [ok_bind, pure_eq_ok, Except.ok.injEq, Prod.mk.injEq]
    refine ⟨trivial, ?_⟩
    simp [encList_enum16_length]
    omega
  | encryptionCapabilities w =>
    obtain ⟨cs⟩ := w
    simp only [NegotiateContextValue.write] at hw
    split at hw
    · simp at hw
    case isFalse h1 =>
    simp only [pure_eq_ok, Except.ok.injEq] at hw
    subst hw
    simp only [NegotiateContextValue.get_matching_type, NegotiateContextValue.read]
    rw [readU16_parts (v := cs.length) (A := pre) (Z := encList (fun a => le16 a.code) cs)
      (by simp [List.append_assoc]) hp (by omega)]
    simp only [ok_bind]
    rw [readN_enum16 EncryptionCipher.code EncryptionCipher.ofCode cipher_ofCode_code
      cipher_code_lt cs _ (pre ++ le16 cs.length) [] (p + 2)
      (by simp [List.append_assoc]) (by simp [hp])]
    simp only [ok_bind, pure_eq_ok, Except.ok.injEq, Prod.mk.injEq]
    refine ⟨trivial, ?_⟩
    simp [encList_enum16_length]
    omega
  | compressionCapabilities w =>
    obtain ⟨fl, algs⟩ := w
    simp only [NegotiateContextValue.write] at hw
    split at hw
    · simp at hw
    case isFalse h1 =>
    simp only [pure_eq_ok, Except.ok.injEq] at hw
    subst hw
    simp only [NegotiateContextValue.Valid] at hv
    simp only [NegotiateContextValue.get_matching_type, NegotiateContextValue.read]
    rw [readU16_parts (v := algs.length) (A := pre)
      (Z := le16 0 ++ (le32 fl ++ encList (fun a => le16 a.code) algs))
      (by simp [List.append_assoc]) hp (by omega)]
    simp only [ok_bind]
    rw [readU16_parts (v := 0) (A := pre ++ le16 algs.length)
      (Z := le32 fl ++ encList (fun a => le16 a.code) algs)
      (by simp [List.append_assoc]) (by simp [hp]) (by norm_num)]
    simp only [ok_bind]
    rw [readU32_parts (v := fl) (A := pre ++ le16 algs.length ++ le16 0)
      (Z := encList (fun a => le16 a.code) algs)
      (by simp [List.append_assoc]) (by simp [hp]) hv]
    simp only [ok_bind]
    rw [readN_enum16 CompressionAlgorithm.code CompressionAlgorithm.ofCode
      compressionAlg_ofCode_code compressionAlg_code_lt algs _
      (pre ++ le16 algs.length ++ le16 0 ++ le32 fl) [] (p + 8)
      (by simp [List.append_assoc]) (by simp [hp])]
    simp only [ok_bind, pure_eq_ok, Except.ok.injEq, Prod.mk.injEq]
    refine ⟨trivial, ?_⟩
    simp [encList_enum16_length]
    omega
  | netnameNegotiateContextId w =>
    obtain ⟨nn⟩ := w
    simp only [NegotiateContextValue.write, pure_eq_ok, Except.ok.injEq] at hw
    subst hw
    simp only [NegotiateContextValue.Valid] at hv
    simp only [NegotiateContextValue.get_matching_type, NegotiateContextValue.read]
    rw [hp, List.drop_left]
    have hlen : (pre ++ SizedWideString.encode nn).length - pre.length =
        (SizedWideString.encode nn).length := by simp
    rw [hlen, List.take_length, SizedWideString.toUnits_encode hv]
    simp
  | transportCapabilities w =>
    obtain ⟨fl⟩ := w
    simp only [NegotiateContextValue.write, pure_eq_ok, Except.ok.injEq] at hw
    subst hw
    simp only [NegotiateContextValue.Valid] at hv
    simp only [NegotiateContextValue.get_matching_type, NegotiateContextValue.read]
    rw [readU32_parts (v := fl) (A := pre) (Z := []) (by simp) hp hv]
    simp
  | rdmaTransformCapabilities w =>
    obtain ⟨ts⟩ := w
    simp only [NegotiateContextValue.write] at hw
    split at hw
    · simp at hw
    case isFalse h1 =>
    simp only [pure_eq_ok, Except.ok.injEq] at hw
    subst hw
    simp only [NegotiateContextValue.get_matching_type, NegotiateContextValue.read]
    rw [readU16_parts (v := ts.length) (A := pre)
      (Z := le16 0 ++ (le32 0 ++ encList (fun a => le16 a.code) ts))
      (by simp [List.append_assoc]) hp (by omega)]
    simp only [ok_bind]
    rw [readU16_parts (v := 0) (A := pre ++ le16 ts.length)
      (Z := le32 0 ++ encList (fun a => le16 a.code) ts)
      (by simp [List.append_assoc]) (by simp [hp]) (by norm_num)]
    simp only [ok_bind]
    rw [readU32_parts (v := 0) (A := pre ++ le16 ts.length ++ le16 0)
      (Z := encList (fun a => le16 a.code) ts)
      (by simp [List.append_assoc]) (by simp [hp]) (by norm_num)]
    simp only [ok_bind]
    rw [readN_enum16 RdmaTransformId.code RdmaTransformId.ofCode rdma_ofCode_code
      rdma_code_lt ts _ (pre ++ le16 ts.length ++ le16 0 ++ le32 0) [] (p + 8)
      (by simp [List.append_assoc]) (by simp [hp])]
    simp only [ok_bind, pure_eq_ok, Except.ok.injEq, Prod.mk.injEq]
    refine ⟨trivial, ?_⟩
    simp [encList_enum16_length]
    omega
  | signingCapabilities w =>
    obtain ⟨ss⟩ := w
    simp only [NegotiateContextValue.write] at hw
    split at hw
    · simp at hw
    case isFalse h1 =>
    simp only [pure_eq_ok, Except.ok.injEq] at hw
    subst hw
    simp only [NegotiateContextValue.get_matching_type, NegotiateContextValue.read]
    rw [readU16_parts (v := ss.length) (A := pre) (Z := encList (fun a => le16 a.code) ss)
      (by simp [List.append_assoc]) hp (by omega)]
    simp only [ok_bind]
    rw [readN_enum16 SigningAlgorithmId.code SigningAlgorithmId.ofCode
      signing_ofCode_code signing_code_lt ss _
      (pre ++ le16 ss.length) [] (p + 2)
      (by simp [List.append_assoc]) (by simp [hp])]
    simp only [ok_bind, pure_eq_ok, Except.ok.injEq, Prod.mk.injEq]
    refine ⟨trivial, ?_⟩
    simp [encList_enum16_length]
    omega

/-- Reading a freshly written negotiate context back recovers it: the
wrapper's alignment padding, type dispatch, size marker and bounded-region
payload parse all invert the write. -/
theorem negotiateContext_read_write (c : NegotiateContext) (hv : c.data.Valid)
    (hty : c.context_type = c.data.get_matching_type)
    {s : Nat} {bytes : List Nat} (pre : List Nat) (hp : s = pre.length)
    (hw : NegotiateContext.write c s = .ok bytes) :
    NegotiateContext.read (pre ++ bytes) s = .ok (c, s + bytes.length) := by
  obtain ⟨ty, v⟩ := c
  simp only at hty
  subst hty
  unfold NegotiateContext.write at hw
  cases hwp : NegotiateContextValue.write v with
  | error e => rw [hwp] at hw; simp at hw
  | ok payload =>
    rw [hwp] at hw
    simp only [ok_bind] at hw
    split at hw
    · simp at hw
    case isFalse hplen =>
    simp only [pure_eq_ok, Except.ok.injEq] at hw
    subst hw
    unfold NegotiateContext.read
    dsimp only
    have hq : s ≤ alignUp s 8 := le_alignUp s 8
    set q := alignUp s 8 with hqdef
    rw [readU16_parts (v := (NegotiateContextValue.get_matching_type v).code)
      (A := pre ++ List.replicate (q - s) 0)
      (Z := le16 payload.length ++ (le32 0 ++ payload))
      (by simp [List.append_assoc]) (by simp [hp]; omega)
      (negotiateType_code_lt _)]
    simp only [ok_bind, negotiateType_ofCode_code, expectDisc_some]
    rw [readU16_parts (v := payload.length)
      (A := pre ++ List.replicate (q - s) 0
        ++ le16 (NegotiateContextValue.get_matching_type v).code)
      (Z := le32 0 ++ payload)
      (by simp [List.append_assoc]) (by simp [hp]; omega) (by omega)]
    simp only [ok_bind]
    rw [readU32_parts (v := 0)
      (A := pre ++ List.replicate (q - s) 0
        ++ le16 (NegotiateContextValue.get_matching_type v).code ++ le16 payload.length)
      (Z := payload)
      (by simp [List.append_assoc]) (by simp [hp]; omega) (by norm_num)]
    simp only [ok_bind]
    have htake : (pre ++ (List.replicate (q - s) 0
          ++ le16 (NegotiateContextValue.get_matching_type v).code
          ++ le16 payload.length ++ le32 0 ++ payload)).take (q + 8 + payload.length)
        = (pre ++ List.replicate (q - s) 0
            ++ le16 (NegotiateContextValue.get_matching_type v).code
            ++ le16 payload.length ++ le32 0) ++ payload := by
      rw [show pre ++ (List.replicate (q - s) 0
          ++ le16 (NegotiateContextValue.get_matching_type v).code
          ++ le16 payload.length ++ le32 0 ++ payload)
        = (pre ++ List.replicate (q - s) 0
            ++ le16 (NegotiateContextValue.get_matching_type v).code
            ++ le16 payload.length ++ le32 0) ++ (payload ++ []) by
          simp [List.append_assoc]]
      rw [take_append_exact _ payload [] (by simp [hp]; omega)]
    rw [htake]
    rw [negotiateValue_read_write v hv hwp
      (pre ++ List.replicate (q - s) 0
        ++ le16 (NegotiateContextValue.get_matching_type v).code
        ++ le16 payload.length ++ le32 0) (by simp [hp]; omega)]
    simp only [ok_bind, pure_eq_ok, Except.ok.injEq, Prod.mk.injEq]
    refine ⟨trivial, ?_⟩
    simp [hp]
    omega

/-- The concrete create-context data codec is lawful on every well-typed
payload value. -/
theorem requestCtxCodec_lawful (d : CreateContextRequestData) (hv : d.Valid) :
    CtxLawfulAt requestCtxCodec d := by
  intro bytes hw buf pre p hbuf hp halign
  cases d with
  | dh2qRequest t f g =>
    obtain ⟨ht, hf, hg⟩ := hv
    simp only [requestCtxCodec, CreateContextRequestData.enc, Except.ok.injEq] at hw
    subst hw
    subst hbuf
    simp only [requestCtxCodec, CreateContextRequestData.dec, CreateContextRequestData.nameOf]
    simp only [if_true]
    rw [readU32_parts (v := t) (A := pre) (Z := le32 f ++ (le64 0 ++ g))
      (by simp [List.append_assoc]) hp ht]
    simp only [ok_bind]
    rw [readU32_parts (v := f) (A := pre ++ le32 t) (Z := le64 0 ++ g)
      (by simp [List.append_assoc]) (by simp [hp]) hf]
    simp only [ok_bind]
    rw [readU64_parts (v := 0) (A := pre ++ le32 t ++ le32 f) (Z := g)
      (by simp [List.append_assoc]) (by simp [hp]) (by norm_num)]
    simp only [ok_bind]
    rw [readBytes_parts (m := g) (A := pre ++ le32 t ++ le32 f ++ le64 0) (Z := [])
      (by simp [List.append_assoc]) (by simp [hp]) hg.symm]
    simp only [ok_bind, pure_eq_ok, Except.ok.injEq, Prod.mk.injEq]
    refine ⟨trivial, ?_⟩
    simp [hg]
  | mxacRequest ts =>
    cases ts with
    | none =>
      simp only [requestCtxCodec, CreateContextRequestData.enc, Except.ok.injEq] at hw
      subst hw
      subst hbuf
      simp only [requestCtxCodec, CreateContextRequestData.dec, CreateContextRequestData.nameOf]
      rw [if_neg (show ¬ (MXAC_NAME = DH2Q_NAME) by decide)]
      simp only [if_true]
      rw [if_pos (show p = (pre ++ ([] : List Nat)).length by simp [hp])]
      simp
    | some t =>
      simp only [CreateContextRequestData.Valid] at hv
      simp only [requestCtxCodec, CreateContextRequestData.enc, Except.ok.injEq] at hw
      subst hw
      subst hbuf
      simp only [requestCtxCodec, CreateContextRequestData.dec, CreateContextRequestData.nameOf]
      rw [if_neg (show ¬ (MXAC_NAME = DH2Q_NAME) by decide)]
      simp only [if_true]
      rw [if_neg (show ¬ p = (pre ++ le64 t).length by simp [hp])]
      rw [readU64_parts (v := t) (A := pre) (Z := []) (by simp) hp hv]
      simp
  | qfidRequest =>
    simp only [requestCtxCodec, CreateContextRequestData.enc, Except.ok.injEq] at hw
    subst hw
    subst hbuf
    simp only [requestCtxCodec, CreateContextRequestData.dec, CreateContextRequestData.nameOf]
    rw [if_neg (show ¬ (QFID_NAME = DH2Q_NAME) by decide),
      if_neg (show ¬ (QFID_NAME = MXAC_NAME) by decide)]
    simp only [if_true]
    simp
  | dhnqRequest =>
    simp only [requestCtxCodec, CreateContextRequestData.enc, Except.ok.injEq] at hw
    subst hw
    subst hbuf
    simp only [requestCtxCodec, CreateContextRequestData.dec, CreateContextRequestData.nameOf]
    rw [if_neg (show ¬ (DHNQ_NAME = DH2Q_NAME) by decide),
      if_neg (show ¬ (DHNQ_NAME = MXAC_NAME) by decide),
      if_neg (show ¬ (DHNQ_NAME = QFID_NAME) by decide)]
    simp only [if_true]
    rw [readU128_parts (v := 0) (A := pre) (Z := []) (by simp) hp (by norm_num)]
    simp
  | alsiRequest v =>
    simp only [CreateContextRequestData.Valid] at hv
    simp only [requestCtxCodec, CreateContextRequestData.enc, Except.ok.injEq] at hw
    subst hw
    subst hbuf
    simp only [requestCtxCodec, CreateContextRequestData.dec, CreateContextRequestData.nameOf]
    rw [if_neg (show ¬ (ALSI_NAME = DH2Q_NAME) by decide),
      if_neg (show ¬ (ALSI_NAME = MXAC_NAME) by decide),
      if_neg (show ¬ (ALSI_NAME = QFID_NAME) by decide),
      if_neg (show ¬ (ALSI_NAME = DHNQ_NAME) by decide)]
    simp only [if_true]
    rw [readU64_parts (v := v) (A := pre) (Z := []) (by simp) hp hv]
    simp

/-- A `CreateContext<T>` with a lawful, name-consistent payload is a
lawful chained-list body at `OFFSET_PAD = 8`: reading a freshly written
context record (header, aligned name, aligned bounded data region) back
recovers it. -/
theorem createContext_lawfulAt {τ : Type} (D : CtxDataCodec τ) (c : CreateContext τ)
    (hname : c.name = D.nameOf c.data) (hdata : CtxLawfulAt D c.data) :
    LawfulAt (CreateContext.codec D) 8 c := by
  intro buf pre post body p hbuf hp hmod henc
  obtain ⟨nm, d⟩ := c
  simp only at hname
  dsimp only at hdata
  simp only [CreateContext.codec] at henc
  unfold CreateContext.write at henc
  dsimp only at henc
  split at henc
  · simp at henc
  case isFalse hnlen =>
  split at henc
  · simp at henc
  case isFalse hnoff =>
  cases hde : D.enc d with
  | error e => rw [hde] at henc; simp at henc
  | ok data =>
    rw [hde] at henc
    simp only [ok_bind] at henc
    split at henc
    · simp at henc
    case isFalse hdoff =>
    split at henc
    · simp at henc
    case isFalse hdlen =>
    simp only [pure_eq_ok, Except.ok.injEq] at henc
    have hmod8 : p % 8 = 4 := by omega
    have hnp : alignUp (p + 12) 8 = p + 12 := alignUp_of_mod (by omega)
    have hdpmod : alignUp (p + 12 + nm.length) 8 % 8 = 0 := alignUp_mod (by norm_num) _
    have hdpge : p + 12 + nm.length ≤ alignUp (p + 12 + nm.length) 8 := le_alignUp _ _
    rw [hnp] at henc hnoff hdoff
    set dataPos := alignUp (p + 12 + nm.length) 8 with hdp
    have hbody : body = le16 16 ++ le16 nm.length ++ le16 0 ++ le16 (dataPos - p + 4)
        ++ le32 data.length ++ nm ++ List.replicate (dataPos - (p + 12 + nm.length)) 0
        ++ data := by
      rw [← henc]
      have h1 : p + 12 - p + 4 = 16 := by omega
      have h2 : p + 12 - (p + 12) = 0 := by omega
      rw [h1, h2]
      simp
    simp only [CreateContext.codec]
    unfold CreateContext.read
    rw [readU16_parts (v := 16) (A := pre)
      (Z := le16 nm.length ++ le16 0 ++ le16 (dataPos - p + 4) ++ le32 data.length
        ++ nm ++ List.replicate (dataPos - (p + 12 + nm.length)) 0 ++ data ++ post)
      (by rw [hbuf, hbody]; simp [List.append_assoc]) hp (by norm_num)]
    simp only [ok_bind]
    rw [readU16_parts (v := nm.length) (A := pre ++ le16 16)
      (Z := le16 0 ++ le16 (dataPos - p + 4) ++ le32 data.length
        ++ nm ++ List.replicate (dataPos - (p + 12 + nm.length)) 0 ++ data ++ post)
      (by rw [hbuf, hbody]; simp [List.append_assoc]) (by simp [hp]) (by omega)]
    simp only [ok_bind]
    rw [readU16_parts (v := 0) (A := pre ++ le16 16 ++ le16 nm.length)
      (Z := le16 (dataPos - p + 4) ++ le32 data.length
        ++ nm ++ List.replicate (dataPos - (p + 12 + nm.length)) 0 ++ data ++ post)
      (by rw [hbuf, hbody]; simp [List.append_assoc]) (by simp [hp]) (by norm_num)]
    simp only [ok_bind]
    rw [readU16_parts (v := dataPos - p + 4) (A := pre ++ le16 16 ++ le16 nm.length ++ le16 0)
      (Z := le32 data.length
        ++ nm ++ List.replicate (dataPos - (p + 12 + nm.length)) 0 ++ data ++ post)
      (by rw [hbuf, hbody]; simp [List.append_assoc]) (by simp [hp]) (by omega)]
    simp only [ok_bind]
    rw [readU32_parts (v := data.length)
      (A := pre ++ le16 16 ++ le16 nm.length ++ le16 0 ++ le16 (dataPos - p + 4))
      (Z := nm ++ List.replicate (dataPos - (p + 12 + nm.length)) 0 ++ data ++ post)
      (by rw [hbuf, hbody]; simp [List.append_assoc]) (by simp [hp]) (by omega)]
    simp only [ok_bind]
    rw [if_neg (by norm_num)]
    have harith : p + 16 - 4 = p + 12 := by omega
    rw [harith]
    rw [readBytes_parts (m := nm)
      (A := pre ++ le16 16 ++ le16 nm.length ++ le16 0 ++ le16 (dataPos - p + 4)
        ++ le32 data.length)
      (Z := List.replicate (dataPos - (p + 12 + nm.length)) 0 ++ data ++ post)
      (by rw [hbuf, hbody]; simp [List.append_assoc]) (by simp [hp]) rfl]
    simp only [ok_bind]
    rw [if_neg (by push_neg; omega)]
    rw [if_neg (by push_neg; intro h; omega)]
    by_cases hdata0 : data = []
    · subst hdata0
      simp only [List.length_nil, Nat.lt_irrefl, if_false, reduceIte, Nat.add_zero]
      have htake : buf.take (p + 12 + nm.length)
          = (pre ++ le16 16 ++ le16 nm.length ++ le16 0 ++ le16 (dataPos - p + 4)
            ++ le32 ([] : List Nat).length) ++ nm := by
        rw [show buf = (pre ++ le16 16 ++ le16 nm.length ++ le16 0 ++ le16 (dataPos - p + 4)
            ++ le32 ([] : List Nat).length) ++ (nm ++ (List.replicate (dataPos - (p + 12 + nm.length)) 0
              ++ (([] : List Nat) ++ post))) by rw [hbuf, hbody]; simp [List.append_assoc]]
        rw [take_append_exact _ nm _ (by simp [hp])]
      rw [htake, hname]
      have hd := hdata [] hde
        (pre ++ le16 16 ++ le16 (D.nameOf d).length ++ le16 0 ++ le16 (dataPos - p + 4)
          ++ le32 ([] : List Nat).length ++ D.nameOf d)
        (pre ++ le16 16 ++ le16 (D.nameOf d).length ++ le16 0 ++ le16 (dataPos - p + 4)
          ++ le32 ([] : List Nat).length ++ D.nameOf d)
        (p + 12 + (D.nameOf d).length)
        (by simp) (by simp [hp]; omega) (by intro h; exact absurd rfl h)
      rw [hd]
      simp only [ok_bind, pure_eq_ok, List.length_nil, Nat.add_zero]
      exact ⟨_, rfl⟩
    · have hlen0 : 0 < data.length := List.length_pos.mpr hdata0
      simp only [if_pos hlen0]
      have harith2 : p + (dataPos - p + 4) - 4 = dataPos := by omega
      rw [harith2]
      have htake : buf.take (dataPos + data.length)
          = (pre ++ le16 16 ++ le16 nm.length ++ le16 0 ++ le16 (dataPos - p + 4)
            ++ le32 data.length ++ nm
            ++ List.replicate (dataPos - (p + 12 + nm.length)) 0) ++ data := by
        rw [show buf = (pre ++ le16 16 ++ le16 nm.length ++ le16 0 ++ le16 (dataPos - p + 4)
            ++ le32 data.length ++ nm ++ List.replicate (dataPos - (p + 12 + nm.length)) 0)
              ++ (data ++ post) by rw [hbuf, hbody]; simp [List.append_assoc]]
        rw [take_append_exact _ data _ (by simp [hp]; omega)]
      rw [htake, hname]
      have hd := hdata data hde
        ((pre ++ le16 16 ++ le16 (D.nameOf d).length ++ le16 0 ++ le16 (dataPos - p + 4)
          ++ le32 data.length ++ D.nameOf d
          ++ List.replicate (dataPos - (p + 12 + (D.nameOf d).length)) 0) ++ data)
        (pre ++ le16 16 ++ le16 (D.nameOf d).length ++ le16 0 ++ le16 (dataPos - p + 4)
          ++ le32 data.length ++ D.nameOf d
          ++ List.replicate (dataPos - (p + 12 + (D.nameOf d).length)) 0)
        dataPos
        rfl (by simp [hp, ← hname]; omega) (fun _ => hdpmod)
      rw [show dataPos - (p + 12 + nm.length) = dataPos - (p + 12 + (D.nameOf d).length) by
        rw [hname]] at *
      rw [hd]
      simp only [ok_bind, pure_eq_ok]
      exact ⟨_, rfl⟩

/-- Reading a freshly written CREATE request back recovers it: the fixed
fields, the 8-aligned sized name and the 8-aligned bounded chained
context list all invert the write. -/
theorem createRequest_read_write {τ : Type} (D : CtxDataCodec τ) (r : CreateRequest τ)
    (hvalid : r.Valid)
    (hctx : ∀ c ∈ r.contexts, c.name = D.nameOf c.data ∧ CtxLawfulAt D c.data)
    {bytes : List Nat} (hw : CreateRequest.write D r = .ok bytes) :
    CreateRequest.read D bytes = .ok r := by
  obtain ⟨ol, imp, da, fa, sa, cd, co, nm, ctxs⟩ := r
  obtain ⟨hda, hfa, hsa, hco, hnm⟩ := hvalid
  simp only [CreateRequest.Valid] at hnm
  dsimp only at hctx
  unfold CreateRequest.write at hw
  dsimp only at hw
  split at hw
  · simp at hw
  case isFalse hnlen =>
  rw [show alignUp 56 8 = 56 from rfl] at hw
  cases hcw : ChainedItem.write_chained (CreateContext.codec D) 8
      (alignUp (56 + (SizedWideString.encode nm).length) 8) ctxs with
  | error e => rw [hcw] at hw; simp at hw
  | ok ctxBytes =>
    rw [hcw] at hw
    simp only [ok_bind] at hw
    split at hw
    · simp at hw
    case isFalse =>
    split at hw
    · simp at hw
    case isFalse hctxpos =>
    split at hw
    · simp at hw
    case isFalse hctxlen =>
    simp only [pure_eq_ok, Except.ok.injEq] at hw
    set nb := SizedWideString.encode nm with hnb
    set cp := alignUp (56 + nb.length) 8 with hcp
    have hcpge : 56 + nb.length ≤ cp := le_alignUp _ _
    have hcpmod : cp % 8 = 0 := alignUp_mod (by norm_num) _
    have hbody : bytes = le16 57 ++ [0] ++ [ol.code] ++ le32 imp.code ++ le64 0 ++ le64 0
        ++ le32 da ++ le32 fa ++ le32 sa ++ le32 cd.code ++ le32 co
        ++ le16 56 ++ le16 nb.length ++ le32 cp ++ le32 ctxBytes.length
        ++ nb ++ List.replicate (cp - (56 + nb.length)) 0 ++ ctxBytes := by
      rw [← hw]
      simp [CreateRequest.fixedFields, List.append_assoc]
    unfold CreateRequest.read
    dsimp only
    rw [readU16_parts (v := 57) (A := [])
      (Z := [0] ++ [ol.code] ++ le32 imp.code ++ le64 0 ++ le64 0
        ++ le32 da ++ le32 fa ++ le32 sa ++ le32 cd.code ++ le32 co
        ++ le16 56 ++ le16 nb.length ++ le32 cp ++ le32 ctxBytes.length
        ++ nb ++ List.replicate (cp - (56 + nb.length)) 0 ++ ctxBytes)
      (by rw [hbody]; simp [List.append_assoc])
      (show (0 : Nat) = ([] : List Nat).length from rfl) (by norm_num)]
    simp only [ok_bind]
    rw [if_neg (by norm_num)]
    rw [readU8_parts (b := 0) (A := le16 57)
      (Z := [ol.code] ++ le32 imp.code ++ le64 0 ++ le64 0
        ++ le32 da ++ le32 fa ++ le32 sa ++ le32 cd.code ++ le32 co
        ++ le16 56 ++ le16 nb.length ++ le32 cp ++ le32 ctxBytes.length
        ++ nb ++ List.replicate (cp - (56 + nb.length)) 0 ++ ctxBytes)
      (by rw [hbody]; simp [List.append_assoc]) (by simp)]
    simp only [ok_bind]
    rw [if_neg (by norm_num)]
    rw [readU8_parts (b := ol.code) (A := le16 57 ++ [0])
      (Z := le32 imp.code ++ le64 0 ++ le64 0
        ++ le32 da ++ le32 fa ++ le32 sa ++ le32 cd.code ++ le32 co
        ++ le16 56 ++ le16 nb.length ++ le32 cp ++ le32 ctxBytes.length
        ++ nb ++ List.replicate (cp - (56 + nb.length)) 0 ++ ctxBytes)
      (by rw [hbody]; simp [List.append_assoc]) (by simp)]
    simp only [ok_bind, oplock_ofCode_code, expectDisc_some]
    rw [readU32_parts (v := imp.code) (A := le16 57 ++ [0] ++ [ol.code])
      (Z := le64 0 ++ le64 0
        ++ le32 da ++ le32 fa ++ le32 sa ++ le32 cd.code ++ le32 co
        ++ le16 56 ++ le16 nb.length ++ le32 cp ++ le32 ctxBytes.length
        ++ nb ++ List.replicate (cp - (56 + nb.length)) 0 ++ ctxBytes)
      (by rw [hbody]; simp [List.append_assoc]) (by simp) (impersonation_code_lt imp)]
    simp only [ok_bind, impersonation_ofCode_code, expectDisc_some]
    rw [readU64_parts (v := 0) (A := le16 57 ++ [0] ++ [ol.code] ++ le32 imp.code)
      (Z := le64 0
        ++ le32 da ++ le32 fa ++ le32 sa ++ le32 cd.code ++ le32 co
        ++ le16 56 ++ le16 nb.length ++ le32 cp ++ le32 ctxBytes.length
        ++ nb ++ List.replicate (cp - (56 + nb.length)) 0 ++ ctxBytes)
      (by rw [hbody]; simp [List.append_assoc]) (by simp) (by norm_num)]
    simp only [ok_bind]
    rw [if_neg (by norm_num)]
    rw [readU64_parts (v := 0)
      (A := le16 57 ++ [0] ++ [ol.code] ++ le32 imp.code ++ le64 0)
      (Z := le32 da ++ le32 fa ++ le32 sa ++ le32 cd.code ++ le32 co
        ++ le16 56 ++ le16 nb.length ++ le32 cp ++ le32 ctxBytes.length
        ++ nb ++ List.replicate (cp - (56 + nb.length)) 0 ++ ctxBytes)
      (by rw [hbody]; simp [List.append_assoc]) (by simp) (by norm_num)]
    simp only [ok_bind]
    rw [readU32_parts (v := da)
      (A := le16 57 ++ [0] ++ [ol.code] ++ le32 imp.code ++ le64 0 ++ le64 0)
      (Z := le32 fa ++ le32 sa ++ le32 cd.code ++ le32 co
        ++ le16 56 ++ le16 nb.length ++ le32 cp ++ le32 ctxBytes.length
        ++ nb ++ List.replicate (cp - (56 + nb.length)) 0 ++ ctxBytes)
      (by rw [hbody]; simp [List.append_assoc]) (by simp) hda]
    simp only [ok_bind]
    rw [readU32_parts (v := fa)
      (A := le16 57 ++ [0] ++ [ol.code] ++ le32 imp.code ++ le64 0 ++ le64 0 ++ le32 da)
      (Z := le32 sa ++ le32 cd.code ++ le32 co
        ++ le16 56 ++ le16 nb.length ++ le32 cp ++ le32 ctxBytes.length
        ++ nb ++ List.replicate (cp - (56 + nb.length)) 0 ++ ctxBytes)
      (by rw [hbody]; simp [List.append_assoc]) (by simp) hfa]
    simp only [ok_bind]
    rw [readU32_parts (v := sa)
      (A := le16 57 ++ [0] ++ [ol.code] ++ le32 imp.code ++ le64 0 ++ le64 0
        ++ le32 da ++ le32 fa)
      (Z := le32 cd.code ++ le32 co
        ++ le16 56 ++ le16 nb.length ++ le32 cp ++ le32 ctxBytes.length
        ++ nb ++ List.replicate (cp - (56 + nb.length)) 0 ++ ctxBytes)
      (by rw [hbody]; simp [List.append_assoc]) (by simp) hsa]
    simp only [ok_bind]
    rw [readU32_parts (v := cd.code)
      (A := le16 57 ++ [0] ++ [ol.code] ++ le32 imp.code ++ le64 0 ++ le64 0
        ++ le32 da ++ le32 fa ++ le32 sa)
      (Z := le32 co
        ++ le16 56 ++ le16 nb.length ++ le32 cp ++ le32 ctxBytes.length
        ++ nb ++ List.replicate (cp - (56 + nb.length)) 0 ++ ctxBytes)
      (by rw [hbody]; simp [List.append_assoc]) (by simp) (disposition_code_lt cd)]
    simp only [ok_bind, disposition_ofCode_code, expectDisc_some]
    rw [readU32_parts (v := co)
      (A := le16 57 ++ [0] ++ [ol.code] ++ le32 imp.code ++ le64 0 ++ le64 0
        ++ le32 da ++ le32 fa ++ le32 sa ++ le32 cd.code)
      (Z := le16 56 ++ le16 nb.length ++ le32 cp ++ le32 ctxBytes.length
        ++ nb ++ List.replicate (cp - (56 + nb.length)) 0 ++ ctxBytes)
      (by rw [hbody]; simp [List.append_assoc]) (by simp) hco]
    simp only [ok_bind]
    rw [readU16_parts (v := 56)
      (A := le16 57 ++ [0] ++ [ol.code] ++ le32 imp.code ++ le64 0 ++ le64 0
        ++ le32 da ++ le32 fa ++ le32 sa ++ le32 cd.code ++ le32 co)
      (Z := le16 nb.length ++ le32 cp ++ le32 ctxBytes.length
        ++ nb ++ List.replicate (cp - (56 + nb.length)) 0 ++ ctxBytes)
      (by rw [hbody]; simp [List.append_assoc]) (by simp) (by norm_num)]
    simp only [ok_bind]
    rw [readU16_parts (v := nb.length)
      (A := le16 57 ++ [0] ++ [ol.code] ++ le32 imp.code ++ le64 0 ++ le64 0
        ++ le32 da ++ le32 fa ++ le32 sa ++ le32 cd.code ++ le32 co ++ le16 56)
      (Z := le32 cp ++ le32 ctxBytes.length
        ++ nb ++ List.replicate (cp - (56 + nb.length)) 0 ++ ctxBytes)
      (by rw [hbody]; simp [List.append_assoc]) (by simp) (by omega)]
    simp only [ok_bind]
    rw [readU32_parts (v := cp)
      (A := le16 57 ++ [0] ++ [ol.code] ++ le32 imp.code ++ le64 0 ++ le64 0
        ++ le32 da ++ le32 fa ++ le32 sa ++ le32 cd.code ++ le32 co ++ le16 56
        ++ le16 nb.length)
      (Z := le32 ctxBytes.length
        ++ nb ++ List.replicate (cp - (56 + nb.length)) 0 ++ ctxBytes)
      (by rw [hbody]; simp [List.append_assoc]) (by simp) (by omega)]
    simp only [ok_bind]
    rw [readU32_parts (v := ctxBytes.length)
      (A := le16 57 ++ [0] ++ [ol.code] ++ le32 imp.code ++ le64 0 ++ le64 0
        ++ le32 da ++ le32 fa ++ le32 sa ++ le32 cd.code ++ le32 co ++ le16 56
        ++ le16 nb.length ++ le32 cp)
      (Z := nb ++ List.replicate (cp - (56 + nb.length)) 0 ++ ctxBytes)
      (by rw [hbody]; simp [List.append_assoc]) (by simp) (by omega)]
    simp only [ok_bind]
    rw [show alignUp 56 8 = 56 from rfl]
    rw [SizedWideString.decode_parts
      (A := le16 57 ++ [0] ++ [ol.code] ++ le32 imp.code ++ le64 0 ++ le64 0
        ++ le32 da ++ le32 fa ++ le32 sa ++ le32 cd.code ++ le32 co ++ le16 56
        ++ le16 nb.length ++ le32 cp ++ le32 ctxBytes.length)
      (Z := List.replicate (cp - (56 + nb.length)) 0 ++ ctxBytes)
      (u := nm)
      (by rw [hbody, hnb]; simp [List.append_assoc]) (by simp) (by simp [hnb]) hnm]
    simp only [ok_bind]
    have htake : bytes.take (cp + ctxBytes.length)
        = (le16 57 ++ [0] ++ [ol.code] ++ le32 imp.code ++ le64 0 ++ le64 0
          ++ le32 da ++ le32 fa ++ le32 sa ++ le32 cd.code ++ le32 co ++ le16 56
          ++ le16 nb.length ++ le32 cp ++ le32 ctxBytes.length
          ++ nb ++ List.replicate (cp - (56 + nb.length)) 0) ++ ctxBytes := by
      rw [show bytes
          = (le16 57 ++ [0] ++ [ol.code] ++ le32 imp.code ++ le64 0 ++ le64 0
            ++ le32 da ++ le32 fa ++ le32 sa ++ le32 cd.code ++ le32 co ++ le16 56
            ++ le16 nb.length ++ le32 cp ++ le32 ctxBytes.length
            ++ nb ++ List.replicate (cp - (56 + nb.length)) 0) ++ (ctxBytes ++ []) by
          rw [hbody]; simp [List.append_assoc]]
      rw [take_append_exact _ ctxBytes [] (by simp; omega)]
    rw [htake]
    have hPre : (le16 57 ++ [0] ++ [ol.code] ++ le32 imp.code ++ le64 0 ++ le64 0
        ++ le32 da ++ le32 fa ++ le32 sa ++ le32 cd.code ++ le32 co ++ le16 56
        ++ le16 nb.length ++ le32 cp ++ le32 ctxBytes.length
        ++ nb ++ List.replicate (cp - (56 + nb.length)) 0).length = cp := by
      simp
      omega
    have hchain := read_write_chained (CreateContext.codec D) (by norm_num) ctxs
      (le16 57 ++ [0] ++ [ol.code] ++ le32 imp.code ++ le64 0 ++ le64 0
        ++ le32 da ++ le32 fa ++ le32 sa ++ le32 cd.code ++ le32 co ++ le16 56
        ++ le16 nb.length ++ le32 cp ++ le32 ctxBytes.length
        ++ nb ++ List.replicate (cp - (56 + nb.length)) 0) ctxBytes
      (by rw [hPre]; exact hcpmod)
      (fun c hc => createContext_lawfulAt D c (hctx c hc).1 (hctx c hc).2)
      (by rw [hPre]; exact hcw)
    rw [hPre] at hchain
    rw [show alignUp (56 + nb.length) 8 = cp from hcp.symm]
    rw [hchain]
    simp

/-- `CreateRequest`'s write fails with an encoding overflow whenever the
encoded name does not fit the 16-bit `name_length` field. -/
theorem createRequest_write_overflow {τ : Type} (D : CtxDataCodec τ) (r : CreateRequest τ)
    (h : 2 ^ 16 ≤ (SizedWideString.encode r.name).length) :
    CreateRequest.write D r = .error .encodingOverflow := by
  unfold CreateRequest.write
  dsimp only
  rw [if_pos h]
  rfl

/-- `CreateContext<T>`'s write panics whenever the context name does not
fit the 16-bit `name_length` field (`u16::try_from(..).unwrap()`). -/
theorem createContext_write_panics {τ : Type} (D : CtxDataCodec τ) (start : Nat)
    (c : CreateContext τ) (h : 2 ^ 16 ≤ c.name.length) :
    CreateContext.write D start c = .error .panicked := by
  unfold CreateContext.write
  rw [if_pos h]
  rfl

end Lemmas

/-- **C4.** Alignment enforcement: whenever the 4-byte `next_entry_offset`
found at the cursor is not a multiple of the list's `OFFSET_PAD`
parameter, `ChainedItem::read_chained` fails with the alignment-violation
decode error (`#[br(assert(next_entry_offset.value % OFFSET_PAD == 0))]`),
for every buffer, every body codec and every pad; decoding never succeeds
on such input. -/
theorem chained_alignment_enforcement {β : Type} (C : BodyCodec β) (pad : Nat)
    (buf : List Nat) (pos off : Nat)
    (hread : readU32 buf pos = .ok off) (hmis : off % pad ≠ 0) :
    ChainedItem.read_chained C pad buf pos = .error .alignmentViolation := by
  have hpos : pos ≠ buf.length := by
    unfold readU32 readBytes at hread
    split at hread
    · omega
    · simp [Except.map] at hread
  unfold ChainedItem.read_chained
  rw [if_neg hpos]
  simp only [ChainedItem.read_loop]
  rw [hread]
  simp [hmis]

/-- Witness for C4: the buffer `[2,0,0,0]` carries next-entry offset 2,
which is not 4-aligned, and decoding it fails with `alignmentViolation`. -/
theorem chained_alignment_enforcement_witness :
    readU32 [2, 0, 0, 0] 0 = .ok 2 ∧ 2 % 4 ≠ 0 ∧
      ChainedItem.read_chained (fixedCodec 8) 4 [2, 0, 0, 0] 0 =
        .error .alignmentViolation :=
  ⟨rfl, by decide,
    chained_alignment_enforcement (fixedCodec 8) 4 [2, 0, 0, 0] 0 2 rfl (by decide)⟩

/-- **C3.** Empty chain: `ChainedItem::write_chained` on an empty list
writes zero bytes, and `ChainedItem::read_chained` on a region whose
cursor already sits at the region end returns the empty list without
attempting to read an item. -/
theorem chained_empty_chain {β : Type} (C : BodyCodec β) (pad s : Nat) :
    ChainedItem.write_chained C pad s ([] : List β) = .ok []
    ∧ ∀ (buf : List Nat) (pos : Nat), pos = buf.length →
        ChainedItem.read_chained C pad buf pos = .ok [] := by
  refine ⟨rfl, fun buf pos h => ?_⟩
  unfold ChainedItem.read_chained
  rw [if_pos h]
  rfl

/-- Witness for C3: the empty list of 8-byte records encodes to zero
bytes, and decoding the zero-byte tail of a 3-byte buffer yields `[]`. -/
theorem chained_empty_chain_witness :
    ChainedItem.write_chained (fixedCodec 8) 4 0 ([] : List (List Nat)) = .ok []
    ∧ ChainedItem.read_chained (fixedCodec 8) 4 [7, 7, 7] 3 = .ok [] :=
  ⟨(chained_empty_chain (fixedCodec 8) 4 0).1,
    (chained_empty_chain (fixedCodec 8) 4 0).2 [7, 7, 7] 3 rfl⟩

/-- **C2, counterexample.** The claim's concrete wire shape is wrong: for
the two-item list `[A, B]` of 8-byte bodies at pad 4, the encoder does
*not* produce `[le32 12] ++ A ++ B` (it writes a 4-byte offset field for
the last item too, holding 0); the claimed 20-byte sequence does not
decode to `[A, B]`; and a chain whose first item has next-entry offset 0
is accepted (the item is treated as last and trailing bytes ignored), not
rejected. -/
theorem chained_terminal_shape_cex :
    ChainedItem.write_chained (fixedCodec 8) 4 0
        [[1, 2, 3, 4, 5, 6, 7, 8], [9, 10, 11, 12, 13, 14, 15, 16]]
      ≠ .ok ([12, 0, 0, 0] ++ [1, 2, 3, 4, 5, 6, 7, 8] ++ [9, 10, 11, 12, 13, 14, 15, 16])
    ∧ ChainedItem.read_chained (fixedCodec 8) 4
        ([12, 0, 0, 0] ++ [1, 2, 3, 4, 5, 6, 7, 8] ++ [9, 10, 11, 12, 13, 14, 15, 16]) 0
      ≠ .ok [[1, 2, 3, 4, 5, 6, 7, 8], [9, 10, 11, 12, 13, 14, 15, 16]]
    ∧ ChainedItem.read_chained (fixedCodec 8) 4
        ([0, 0, 0, 0] ++ [1, 2, 3, 4, 5, 6, 7, 8] ++ [99, 99, 99, 99]) 0
      = .ok [[1, 2, 3, 4, 5, 6, 7, 8]] := by
  refine ⟨by decide, by decide, rfl⟩

/-- **C2, amended.** Encoding a chained list of N>0 items writes an offset
field for every item, the last one holding 0: for `[A, B]` with 8-byte
bodies and pad 4 the wire is `[le32 12] ++ A ++ [le32 0] ++ B` (the first
offset is 12 = 4-byte field + 8-byte body), those bytes decode back to
`[A, B]`, and a zero next-entry offset always terminates the walk — an
item carrying offset 0 is decoded as the last item (trailing bytes are
left unread), never rejected. -/
theorem chained_terminal_shape_amended :
    ChainedItem.write_chained (fixedCodec 8) 4 0
        [[1, 2, 3, 4, 5, 6, 7, 8], [9, 10, 11, 12, 13, 14, 15, 16]]
      = .ok ([12, 0, 0, 0] ++ [1, 2, 3, 4, 5, 6, 7, 8]
          ++ ([0, 0, 0, 0] ++ [9, 10, 11, 12, 13, 14, 15, 16]))
    ∧ ChainedItem.read_chained (fixedCodec 8) 4
        ([12, 0, 0, 0] ++ [1, 2, 3, 4, 5, 6, 7, 8]
          ++ ([0, 0, 0, 0] ++ [9, 10, 11, 12, 13, 14, 15, 16])) 0
      = .ok [[1, 2, 3, 4, 5, 6, 7, 8], [9, 10, 11, 12, 13, 14, 15, 16]]
    ∧ ChainedItem.read_chained (fixedCodec 8) 4
        ([0, 0, 0, 0] ++ [1, 2, 3, 4, 5, 6, 7, 8] ++ [99, 99, 99, 99]) 0
      = .ok [[1, 2, 3, 4, 5, 6, 7, 8]] :=
  ⟨rfl, rfl, rfl⟩

set_option maxRecDepth 20000 in
/-- Conformance check against the repository's own test vector: the model
encodes the `create.rs` `test_request!` value to exactly the repository's
expected bytes (up to the standalone-offset adjustment described at
`createRequestTestBytes`), and decodes them back. -/
theorem createRequest_test_vector :
    CreateRequest.write requestCtxCodec testCreateRequest = .ok createRequestTestBytes
    ∧ CreateRequest.read requestCtxCodec createRequestTestBytes = .ok testCreateRequest :=
  ⟨rfl, rfl⟩

/-- **C1.** Round-trip law, `decode(encode(v)) == v`, for: every chained
item list over every lawful body codec (zero, one or more elements, any
pad, any aligned start); every negotiate context (tagged-union dispatch
over the full variant table of `negotiate.rs`); and every CREATE request
(a variable-length message with sized name, alignment padding, and an
offset/length-bounded chained tagged create-context list), over every
lawful name-dispatched context-data codec. -/
theorem roundtrip_decode_encode :
    (∀ (β : Type) (C : BodyCodec β) (pad : Nat) (l : List β) (pre bytes : List Nat),
      0 < pad → pre.length % pad = 0 → (∀ b ∈ l, LawfulAt C pad b) →
      ChainedItem.write_chained C pad pre.length l = .ok bytes →
      ChainedItem.read_chained C pad (pre ++ bytes) pre.length = .ok l)
    ∧ (∀ (c : NegotiateContext) (bytes : List Nat),
      c.data.Valid → c.context_type = c.data.get_matching_type →
      NegotiateContext.write c 0 = .ok bytes →
      NegotiateContext.read bytes 0 = .ok (c, bytes.length))
    ∧ (∀ (τ : Type) (D : CtxDataCodec τ) (r : CreateRequest τ) (bytes : List Nat),
      r.Valid → (∀ c ∈ r.contexts, c.name = D.nameOf c.data ∧ CtxLawfulAt D c.data) →
      CreateRequest.write D r = .ok bytes →
      CreateRequest.read D bytes = .ok r) := by
  refine ⟨?_, ?_, ?_⟩
  · intro β C pad l pre bytes hpad hpre hlaw hw
    exact read_write_chained C hpad l pre bytes hpre hlaw hw
  · intro c bytes hv hty hw
    simpa using negotiateContext_read_write c hv hty [] rfl hw
  · intro τ D r bytes hv hctx hw
    exact createRequest_read_write D r hv hctx hw

set_option maxRecDepth 20000 in
/-- Witness for C1: the two-item 8-byte-body chain at pad 4 round-trips;
the sample negotiate context round-trips; and the repository's own CREATE
request test vector round-trips. -/
theorem roundtrip_decode_encode_witness :
    ChainedItem.write_chained (fixedCodec 8) 4 0
        [[1, 2, 3, 4, 5, 6, 7, 8], [9, 10, 11, 12, 13, 14, 15, 16]]
      = .ok ([12, 0, 0, 0, 1, 2, 3, 4, 5, 6, 7, 8, 0, 0, 0, 0, 9, 10, 11, 12, 13, 14, 15, 16])
    ∧ ChainedItem.read_chained (fixedCodec 8) 4
        ([12, 0, 0, 0, 1, 2, 3, 4, 5, 6, 7, 8, 0, 0, 0, 0, 9, 10, 11, 12, 13, 14, 15, 16]) 0
      = .ok [[1, 2, 3, 4, 5, 6, 7, 8], [9, 10, 11, 12, 13, 14, 15, 16]]
    ∧ NegotiateContext.write testNegotiateContext 0
      = .ok [1, 0, 10, 0, 0, 0, 0, 0, 1, 0, 4, 0, 1, 0, 237, 0, 108, 48]
    ∧ NegotiateContext.read [1, 0, 10, 0, 0, 0, 0, 0, 1, 0, 4, 0, 1, 0, 237, 0, 108, 48] 0
      = .ok (testNegotiateContext, 18)
    ∧ CreateRequest.write requestCtxCodec testCreateRequest = .ok createRequestTestBytes
    ∧ CreateRequest.read requestCtxCodec createRequestTestBytes = .ok testCreateRequest := by
  refine ⟨rfl, ?_, rfl, ?_, rfl, ?_⟩
  · have h := roundtrip_decode_encode.1 (List Nat) (fixedCodec 8) 4
      [[1, 2, 3, 4, 5, 6, 7, 8], [9, 10, 11, 12, 13, 14, 15, 16]] []
      [12, 0, 0, 0, 1, 2, 3, 4, 5, 6, 7, 8, 0, 0, 0, 0, 9, 10, 11, 12, 13, 14, 15, 16]
      (by decide) rfl
      (by
        intro b hb
        simp only [List.mem_cons, List.not_mem_nil, or_false] at hb
        rcases hb with rfl | rfl
        · exact fixedCodec_lawfulAt rfl 4
        · exact fixedCodec_lawfulAt rfl 4)
      rfl
    simpa using h
  · have h := roundtrip_decode_encode.2.1 testNegotiateContext
      [1, 0, 10, 0, 0, 0, 0, 0, 1, 0, 4, 0, 1, 0, 237, 0, 108, 48]
      trivial rfl rfl
    simpa using h
  · exact roundtrip_decode_encode.2.2 CreateContextRequestData requestCtxCodec
      testCreateRequest createRequestTestBytes
      (by refine ⟨by decide, by decide, by decide, by decide, ?_⟩; decide)
      (by
        intro c hc
        simp only [testCreateRequest, List.mem_cons, List.not_mem_nil, or_false] at hc
        rcases hc with rfl | rfl | rfl
        · exact ⟨rfl, requestCtxCodec_lawful _ (by refine ⟨by decide, by decide, rfl⟩)⟩
        · exact ⟨rfl, requestCtxCodec_lawful _ trivial⟩
        · exact ⟨rfl, requestCtxCodec_lawful _ trivial⟩)
      rfl

/-- **C5 (counterexample).** The claim says an oversized length is always
reported as an `EncodingOverflow` error returned to the caller; but
`CreateContext::name_length` is computed with `u16::try_from(..).unwrap()`
(`create.rs`), so encoding a create context whose name has 2^16 bytes
panics instead of returning an encoding-overflow error. -/
theorem encoding_overflow_cex :
    CreateContext.write requestCtxCodec 0
        ⟨List.replicate (2 ^ 16) 0, .qfidRequest⟩ = .error .panicked
    ∧ (Except.error EncodeError.panicked : Except EncodeError (List Nat))
      ≠ .error .encodingOverflow :=
  ⟨createContext_write_panics requestCtxCodec 0 _
      (List.length_replicate (2 ^ 16) (0 : Nat)).ge,
   fun h => EncodeError.noConfusion (Except.error.inj h)⟩

/-- **C5 (amended).** Oversized lengths never silently truncate, but the
failure mode differs by site: `CreateRequest`'s 16-bit name length
(`bw(try_calc)`) fails with an `EncodingOverflow` error returned to the
caller, while `CreateContext`'s 16-bit context-name length
(`u16::try_from(..).unwrap()`) panics. -/
theorem encoding_overflow_amended :
    (∀ (τ : Type) (D : CtxDataCodec τ) (r : CreateRequest τ),
      2 ^ 16 ≤ (SizedWideString.encode r.name).length →
      CreateRequest.write D r = .error .encodingOverflow)
    ∧ (∀ (τ : Type) (D : CtxDataCodec τ) (start : Nat) (c : CreateContext τ),
      2 ^ 16 ≤ c.name.length →
      CreateContext.write D start c = .error .panicked) :=
  ⟨fun τ D r h => createRequest_write_overflow D r h,
   fun τ D start c h => createContext_write_panics D start c h⟩

/-- Witness for the amended C5 at concrete oversized values: a CREATE
request whose name is 2^15 wide characters (2^16 bytes) and a create
context whose name is 2^16 bytes. -/
theorem encoding_overflow_amended_witness :
    CreateRequest.write requestCtxCodec
        { testCreateRequest with name := List.replicate (2 ^ 15) 0 }
      = .error .encodingOverflow
    ∧ CreateContext.write requestCtxCodec 7
        ⟨List.replicate (2 ^ 16) 1, .dhnqRequest⟩ = .error .panicked :=
  ⟨encoding_overflow_amended.1 CreateContextRequestData requestCtxCodec _
      (by
        show 2 ^ 16 ≤ (SizedWideString.encode (List.replicate (2 ^ 15) 0)).length
        rw [SizedWideString.encode_length, List.length_replicate]
        norm_num),
   encoding_overflow_amended.2 CreateContextRequestData requestCtxCodec 7 _
      (List.length_replicate (2 ^ 16) (1 : Nat)).ge⟩

/-- **C10.** A zero-length READ response payload is unrepresentable in
either direction (`file.rs`): decoding rejects every buffer whose
`DataLength` field is zero and every buffer whose `DataOffset` field is
below `Header::STRUCT_SIZE + 16` (the `data_offset >= Header::STRUCT_SIZE
+ Self::STRUCT_SIZE - 1` assert, 64 + 17 - 1 = 80); a successful decode
always carries a non-empty buffer; encoding a `ReadResponse` succeeds
only for a non-empty buffer, the empty buffer failing the
`bw(assert(!buffer.is_empty()))` check. -/
theorem readresponse_no_empty_payload :
    (∀ (buf : List Nat) (p dlen : Nat),
      readU32 buf (p + 4) = .ok dlen → dlen = 0 →
      ∀ r, ReadResponse.read buf p ≠ .ok r)
    ∧ (∀ (buf : List Nat) (p doff : Nat),
      readU8 buf (p + 2) = .ok doff → doff < Header.STRUCT_SIZE + 16 →
      ∀ r, ReadResponse.read buf p ≠ .ok r)
    ∧ (∀ (buf : List Nat) (p : Nat) (r : ReadResponse),
      ReadResponse.read buf p = .ok r → r.buffer ≠ [])
    ∧ (∀ (r : ReadResponse) (p : Nat) (bytes : List Nat),
      ReadResponse.write r p = .ok bytes → r.buffer ≠ [])
    ∧ (∀ p, ReadResponse.write ⟨[]⟩ p = .error .assertFail) := by
  refine ⟨?_, ?_, ?_, ?_, ?_⟩
  · intro buf p dlen h4 h0 r hok
    unfold ReadResponse.read at hok
    cases hsz : readU16 buf p with
    | error e => rw [hsz] at hok; simp at hok
    | ok sz =>
      rw [hsz] at hok
      simp only [ok_bind] at hok
      by_cases h17 : sz ≠ 17
      · rw [if_pos h17] at hok; simp at hok
      · rw [if_neg h17] at hok
        cases hdo : readU8 buf (p + 2) with
        | error e => rw [hdo] at hok; simp at hok
        | ok doff =>
          rw [hdo] at hok
          simp only [ok_bind] at hok
          by_cases hlo : doff < Header.STRUCT_SIZE + ReadResponse.STRUCT_SIZE - 1
          · rw [if_pos hlo] at hok; simp at hok
          · rw [if_neg hlo] at hok
            cases h3 : readU8 buf (p + 3) with
            | error e => rw [h3] at hok; simp at hok
            | ok x =>
              rw [h3] at hok
              simp only [ok_bind] at hok
              rw [h4] at hok
              simp only [ok_bind] at hok
              rw [if_pos h0] at hok
              simp at hok
  · intro buf p doff hdoff hlt r hok
    unfold ReadResponse.read at hok
    cases hsz : readU16 buf p with
    | error e => rw [hsz] at hok; simp at hok
    | ok sz =>
      rw [hsz] at hok
      simp only [ok_bind] at hok
      by_cases h17 : sz ≠ 17
      · rw [if_pos h17] at hok; simp at hok
      · rw [if_neg h17] at hok
        rw [hdoff] at hok
        simp only [ok_bind] at hok
        rw [if_pos (by
          simp only [Header.STRUCT_SIZE, ReadResponse.STRUCT_SIZE] at hlt ⊢
          omega)] at hok
        simp at hok
  · intro buf p r hok
    unfold ReadResponse.read at hok
    cases hsz : readU16 buf p with
    | error e => rw [hsz] at hok; simp at hok
    | ok sz =>
      rw [hsz] at hok
      simp only [ok_bind] at hok
      by_cases h17 : sz ≠ 17
      · rw [if_pos h17] at hok; simp at hok
      · rw [if_neg h17] at hok
        cases hdo : readU8 buf (p + 2) with
        | error e => rw [hdo] at hok; simp at hok
        | ok doff =>
          rw [hdo] at hok
          simp only [ok_bind] at hok
          by_cases hlo : doff < Header.STRUCT_SIZE + ReadResponse.STRUCT_SIZE - 1
          · rw [if_pos hlo] at hok; simp at hok
          · rw [if_neg hlo] at hok
            cases h3 : readU8 buf (p + 3) with
            | error e => rw [h3] at hok; simp at hok
            | ok x =>
              rw [h3] at hok
              simp only [ok_bind] at hok
              cases h4 : readU32 buf (p + 4) with
              | error e => rw [h4] at hok; simp at hok
              | ok dlen =>
                rw [h4] at hok
                simp only [ok_bind] at hok
                by_cases hd0 : dlen = 0
                · rw [if_pos hd0] at hok; simp at hok
                · rw [if_neg hd0] at hok
                  cases h8 : readU32 buf (p + 8) with
                  | error e => rw [h8] at hok; simp at hok
                  | ok drem =>
                    rw [h8] at hok
                    simp only [ok_bind] at hok
                    by_cases hr0 : drem ≠ 0
                    · rw [if_pos hr0] at hok; simp at hok
                    · rw [if_neg hr0] at hok
                      cases h12 : readU32 buf (p + 12) with
                      | error e => rw [h12] at hok; simp at hok
                      | ok y =>
                        rw [h12] at hok
                        simp only [ok_bind] at hok
                        cases hdata : readBytes buf doff dlen with
                        | error e => rw [hdata] at hok; simp at hok
                        | ok data =>
                          rw [hdata] at hok
                          simp only [ok_bind, pure_eq_ok, Except.ok.injEq] at hok
                          unfold readBytes at hdata
                          by_cases hle : doff + dlen ≤ buf.length
                          · rw [if_pos hle] at hdata
                            simp only [pure_eq_ok, Except.ok.injEq] at hdata
                            have hlen : data.length = dlen := by
                              rw [← hdata]
                              simp only [List.length_take, List.length_drop]
                              omega
                            subst hok
                            dsimp only
                            intro hnil
                            rw [hnil] at hlen
                            simp at hlen
                            omega
                          · rw [if_neg hle] at hdata; simp at hdata
  · intro r p bytes hw hnil
    unfold ReadResponse.write at hw
    rw [if_pos hnil] at hw
    simp at hw
  · intro p
    simp [ReadResponse.write]

/-- Witness for C10: a 17-sized buffer with zero `DataLength` is
rejected; one with `DataOffset` 70 (< 80) is rejected; a well-formed
response decodes to a non-empty payload; writing a one-byte payload
succeeds while writing an empty buffer fails the assert. -/
theorem readresponse_no_empty_payload_witness :
    ReadResponse.read [17, 0, 80, 0, 0, 0, 0, 0, 0, 0, 0, 0, 0, 0, 0, 0] 0 ≠ .ok ⟨[5]⟩
    ∧ ReadResponse.read [17, 0, 70, 0, 1, 0, 0, 0, 0, 0, 0, 0, 0, 0, 0, 0] 0 ≠ .ok ⟨[5]⟩
    ∧ ReadResponse.read
        ([17, 0, 80, 0, 1, 0, 0, 0, 0, 0, 0, 0, 0, 0, 0, 0]
          ++ List.replicate 64 0 ++ [7]) 0 = .ok ⟨[7]⟩
    ∧ (ReadResponse.mk [7]).buffer ≠ []
    ∧ ReadResponse.write ⟨[1]⟩ 0
      = .ok [17, 0, 16, 0, 1, 0, 0, 0, 0, 0, 0, 0, 0, 0, 0, 0, 1]
    ∧ (ReadResponse.mk [1]).buffer ≠ []
    ∧ ReadResponse.write ⟨[]⟩ 3 = .error .assertFail := by
  refine ⟨?_, ?_, by decide, ?_, by decide, ?_, ?_⟩
  · exact readresponse_no_empty_payload.1
      [17, 0, 80, 0, 0, 0, 0, 0, 0, 0, 0, 0, 0, 0, 0, 0] 0 0 rfl rfl ⟨[5]⟩
  · exact readresponse_no_empty_payload.2.1
      [17, 0, 70, 0, 1, 0, 0, 0, 0, 0, 0, 0, 0, 0, 0, 0] 0 70 rfl (by decide) ⟨[5]⟩
  · exact readresponse_no_empty_payload.2.2.1
      ([17, 0, 80, 0, 1, 0, 0, 0, 0, 0, 0, 0, 0, 0, 0, 0]
        ++ List.replicate 64 0 ++ [7]) 0 ⟨[7]⟩ (by decide)
  · exact readresponse_no_empty_payload.2.2.2.1 ⟨[1]⟩ 0
      [17, 0, 16, 0, 1, 0, 0, 0, 0, 0, 0, 0, 0, 0, 0, 0, 1] rfl
  · exact readresponse_no_empty_payload.2.2.2.2 3

/-- Destructuring a successful `Except` bind: the first action succeeded
and the continuation succeeded on its result. -/
theorem exceptBind_ok {ε α β : Type} {x : Except ε α} {f : α → Except ε β} {b : β}
    (h : x >>= f = .ok b) : ∃ a, x = .ok a ∧ f a = .ok b := by
  cases x with
  | error e => simp at h
  | ok a => exact ⟨a, rfl, by simpa using h⟩

/-- **C7.** Constant structure-size and must-be-zero fields are enforced
in both directions: `CreateRequest` decoding fails with a structural
violation whenever the wire structure-size field is not 57 or the
security-flags byte is not 0, and every successful `CreateRequest`
encoding starts with exactly the bytes 57, 0 (little-endian size) and 0
(security flags); likewise `ReadResponse` decoding fails whenever its
structure-size field is not 17, and every successful `ReadResponse`
encoding starts with exactly the bytes 17, 0. -/
theorem structural_violation_enforcement :
    (∀ (τ : Type) (D : CtxDataCodec τ) (buf : List Nat) (sz : Nat),
      readU16 buf 0 = .ok sz → sz ≠ 57 →
      CreateRequest.read D buf = .error .structuralViolation)
    ∧ (∀ (τ : Type) (D : CtxDataCodec τ) (buf : List Nat) (sf : Nat),
      readU16 buf 0 = .ok 57 → readU8 buf 2 = .ok sf → sf ≠ 0 →
      CreateRequest.read D buf = .error .structuralViolation)
    ∧ (∀ (τ : Type) (D : CtxDataCodec τ) (r : CreateRequest τ) (bytes : List Nat),
      CreateRequest.write D r = .ok bytes → bytes.take 3 = [57, 0, 0])
    ∧ (∀ (buf : List Nat) (p sz : Nat),
      readU16 buf p = .ok sz → sz ≠ 17 →
      ReadResponse.read buf p = .error .structuralViolation)
    ∧ (∀ (r : ReadResponse) (p : Nat) (bytes : List Nat),
      ReadResponse.write r p = .ok bytes → bytes.take 2 = [17, 0]) := by
  refine ⟨?_, ?_, ?_, ?_, ?_⟩
  · intro τ D buf sz hsz hne
    unfold CreateRequest.read
    rw [hsz]
    simp only [ok_bind]
    rw [if_pos hne]
    rfl
  · intro τ D buf sf h0 h2 hne
    unfold CreateRequest.read
    rw [h0]
    simp only [ok_bind]
    rw [if_neg (show ¬ (57 : Nat) ≠ 57 by simp)]
    rw [h2]
    simp only [ok_bind]
    rw [if_pos hne]
    rfl
  · intro τ D r bytes hw
    unfold CreateRequest.write at hw
    dsimp only at hw
    split at hw
    · simp at hw
    · obtain ⟨cb, hcb, hw⟩ := exceptBind_ok hw
      split at hw
      · simp at hw
      · split at hw
        · simp at hw
        · split at hw
          · simp at hw
          · simp only [pure_eq_ok, Except.ok.injEq] at hw
            subst hw
            simp [CreateRequest.fixedFields, le16]
  · intro buf p sz hsz hne
    unfold ReadResponse.read
    rw [hsz]
    simp only [ok_bind]
    rw [if_pos hne]
    rfl
  · intro r p bytes hw
    unfold ReadResponse.write at hw
    split at hw
    · simp at hw
    · split at hw
      · simp at hw
      · split at hw
        · simp at hw
        · simp only [pure_eq_ok, Except.ok.injEq] at hw
          subst hw
          simp [le16]

set_option maxRecDepth 20000 in
/-- Witness for C7: a CREATE request buffer with size field 56 and one
with security-flags 5 are rejected; the repository test vector's bytes
start with 57, 0, 0; a READ response buffer with size field 16 is
rejected, and an encoded one-byte READ response starts with 17, 0. -/
theorem structural_violation_enforcement_witness :
    CreateRequest.read requestCtxCodec [56, 0, 0, 0] = .error .structuralViolation
    ∧ CreateRequest.read requestCtxCodec [57, 0, 5] = .error .structuralViolation
    ∧ createRequestTestBytes.take 3 = [57, 0, 0]
    ∧ ReadResponse.read [16, 0, 80, 0, 1, 0, 0, 0] 0 = .error .structuralViolation
    ∧ [17, 0, 16, 0, 1, 0, 0, 0, 0, 0, 0, 0, 0, 0, 0, 0, 1].take 2 = [17, 0] :=
  ⟨structural_violation_enforcement.1 CreateContextRequestData requestCtxCodec
      [56, 0, 0, 0] 56 rfl (by decide),
   structural_violation_enforcement.2.1 CreateContextRequestData requestCtxCodec
      [57, 0, 5] 5 rfl rfl (by decide),
   structural_violation_enforcement.2.2.1 CreateContextRequestData requestCtxCodec
      testCreateRequest createRequestTestBytes rfl,
   structural_violation_enforcement.2.2.2.1 [16, 0, 80, 0, 1, 0, 0, 0] 0 16 rfl (by decide),
   structural_violation_enforcement.2.2.2.2 ⟨[1]⟩ 0
      [17, 0, 16, 0, 1, 0, 0, 0, 0, 0, 0, 0, 0, 0, 0, 0, 1] rfl⟩

/-- **C8.** Sized wide string (modelled from the spec, §4.5): when the
sibling length field holds byte count `2 * n` and the buffer has that
many bytes available, decoding reads exactly those `2 * n` bytes and
yields an `n`-code-unit string; re-encoding that string writes the
identical byte payload, and the recomputed sibling length (`size`) is
again `2 * n`. -/
theorem sized_wide_string_exact :
    ∀ (buf : List Nat) (pos n : Nat),
      pos + 2 * n ≤ buf.length → (∀ b ∈ buf, b < 256) →
      ∃ cs, SizedWideString.decode buf pos (2 * n) = .ok cs
        ∧ cs.length = n
        ∧ SizedWideString.encode cs = (buf.drop pos).take (2 * n)
        ∧ SizedWideString.size cs = 2 * n := by
  intro buf pos n hle hb
  have hsl : ((buf.drop pos).take (2 * n)).length = 2 * n := by
    simp only [List.length_take, List.length_drop]
    omega
  refine ⟨SizedWideString.toUnits ((buf.drop pos).take (2 * n)), ?_, ?_, ?_, ?_⟩
  · unfold SizedWideString.decode readBytes
    rw [if_pos hle]
    rfl
  · rw [SizedWideString.toUnits_length, hsl]
    omega
  · exact SizedWideString.encode_toUnits (by rw [hsl]; omega)
      (fun b hmem => hb b (List.mem_of_mem_drop (List.mem_of_mem_take hmem)))
  · unfold SizedWideString.size
    rw [SizedWideString.toUnits_length, hsl]
    omega

/-- Witness for C8: byte count 10 in an 11-byte buffer decodes to a
5-character string that re-encodes to the same 10 bytes. -/
theorem sized_wide_string_exact_witness :
    (0 : Nat) + 2 * 5 ≤ ([104, 0, 101, 0, 108, 0, 108, 0, 111, 0, 255] : List Nat).length
    ∧ ∃ cs, SizedWideString.decode [104, 0, 101, 0, 108, 0, 108, 0, 111, 0, 255] 0 (2 * 5)
        = .ok cs
      ∧ cs.length = 5
      ∧ SizedWideString.encode cs
        = (([104, 0, 101, 0, 108, 0, 108, 0, 111, 0, 255] : List Nat).drop 0).take (2 * 5)
      ∧ SizedWideString.size cs = 2 * 5 :=
  ⟨by decide,
   sized_wide_string_exact [104, 0, 101, 0, 108, 0, 108, 0, 111, 0, 255] 0 5
      (by decide) (by decide)⟩

/-- Reading inside the first `B` bytes is unaffected by truncating the
buffer at `B`. -/
theorem readBytes_take (B : Nat) (buf : List Nat) (p n : Nat) (h : p + n ≤ B) :
    readBytes (buf.take B) p n = readBytes buf p n := by
  unfold readBytes
  by_cases hok : p + n ≤ buf.length
  · rw [if_pos (by simp only [List.length_take]; omega), if_pos hok]
    congr 1
    rw [List.drop_take, List.take_take]
    congr 1
    omega
  · rw [if_neg (by simp only [List.length_take]; omega), if_neg hok]

/-- `readU8` inside the first `B` bytes ignores truncation at `B`. -/
theorem readU8_take (B : Nat) (buf : List Nat) (p : Nat) (h : p + 1 ≤ B) :
    readU8 (buf.take B) p = readU8 buf p := by
  unfold readU8
  rw [readBytes_take B buf p 1 h]

/-- `readU16` inside the first `B` bytes ignores truncation at `B`. -/
theorem readU16_take (B : Nat) (buf : List Nat) (p : Nat) (h : p + 2 ≤ B) :
    readU16 (buf.take B) p = readU16 buf p := by
  unfold readU16
  rw [readBytes_take B buf p 2 h]

/-- `readU32` inside the first `B` bytes ignores truncation at `B`. -/
theorem readU32_take (B : Nat) (buf : List Nat) (p : Nat) (h : p + 4 ≤ B) :
    readU32 (buf.take B) p = readU32 buf p := by
  unfold readU32
  rw [readBytes_take B buf p 4 h]

/-- `readU64` inside the first `B` bytes ignores truncation at `B`. -/
theorem readU64_take (B : Nat) (buf : List Nat) (p : Nat) (h : p + 8 ≤ B) :
    readU64 (buf.take B) p = readU64 buf p := by
  unfold readU64
  rw [readBytes_take B buf p 8 h]

/-- Sized-wide-string decoding inside the first `B` bytes ignores
truncation at `B`. -/
theorem sizedWideString_decode_take (B : Nat) (buf : List Nat) (p n : Nat) (h : p + n ≤ B) :
    SizedWideString.decode (buf.take B) p n = SizedWideString.decode buf p n := by
  unfold SizedWideString.decode
  rw [readBytes_take B buf p n h]

/-- **C6.** Bounded-region containment: a decoder given a region
delimited by an offset+length pair never reads at or past the region's
end.  For a negotiate context whose `data_length` field holds `dlen`, the
whole decode result is a function of the first `aligned-start + 8 + dlen`
buffer bytes (the `take_seek(data_length)` region end); for a CREATE
request whose `name_length` field holds `nlen` and whose
`create_contexts_length` field holds `clen`, the whole decode result is a
function of the first `align8(56 + nlen) + clen` bytes (the
`take_seek(ctx_length)` region end) — truncating the buffer there changes
nothing, for every input. -/
theorem bounded_region_containment :
    (∀ (buf : List Nat) (pos dlen : Nat),
      readU16 buf (alignUp pos 8 + 2) = .ok dlen →
      NegotiateContext.read buf pos
        = NegotiateContext.read (buf.take (alignUp pos 8 + 8 + dlen)) pos)
    ∧ (∀ (τ : Type) (D : CtxDataCodec τ) (buf : List Nat) (nlen clen : Nat),
      readU16 buf 46 = .ok nlen → readU32 buf 52 = .ok clen →
      CreateRequest.read D buf
        = CreateRequest.read D (buf.take (alignUp (56 + nlen) 8 + clen))) := by
  constructor
  · intro buf pos dlen h
    unfold NegotiateContext.read
    dsimp only
    simp only [readU16_take (alignUp pos 8 + 8 + dlen) buf (alignUp pos 8) (by omega),
      readU16_take (alignUp pos 8 + 8 + dlen) buf (alignUp pos 8 + 2) (by omega),
      readU32_take (alignUp pos 8 + 8 + dlen) buf (alignUp pos 8 + 4) (by omega)]
    simp only [h, ok_bind]
    simp only [List.take_take, Nat.min_self]
  · intro τ D buf nlen clen h46 h52
    unfold CreateRequest.read
    dsimp only
    have hA : alignUp 56 8 = 56 := by decide
    have hN : 56 + nlen ≤ alignUp (56 + nlen) 8 := le_alignUp _ _
    simp only [hA]
    simp only [readU16_take (alignUp (56 + nlen) 8 + clen) buf 0 (by omega),
      readU8_take (alignUp (56 + nlen) 8 + clen) buf 2 (by omega),
      readU8_take (alignUp (56 + nlen) 8 + clen) buf 3 (by omega),
      readU32_take (alignUp (56 + nlen) 8 + clen) buf 4 (by omega),
      readU64_take (alignUp (56 + nlen) 8 + clen) buf 8 (by omega),
      readU64_take (alignUp (56 + nlen) 8 + clen) buf 16 (by omega),
      readU32_take (alignUp (56 + nlen) 8 + clen) buf 24 (by omega),
      readU32_take (alignUp (56 + nlen) 8 + clen) buf 28 (by omega),
      readU32_take (alignUp (56 + nlen) 8 + clen) buf 32 (by omega),
      readU32_take (alignUp (56 + nlen) 8 + clen) buf 36 (by omega),
      readU32_take (alignUp (56 + nlen) 8 + clen) buf 40 (by omega),
      readU16_take (alignUp (56 + nlen) 8 + clen) buf 44 (by omega),
      readU16_take (alignUp (56 + nlen) 8 + clen) buf 46 (by omega),
      readU32_take (alignUp (56 + nlen) 8 + clen) buf 48 (by omega),
      readU32_take (alignUp (56 + nlen) 8 + clen) buf 52 (by omega)]
    simp only [h46, h52, ok_bind]
    simp only [sizedWideString_decode_take (alignUp (56 + nlen) 8 + clen) buf 56 nlen
      (by omega)]
    simp only [List.take_take, Nat.min_self]

set_option maxRecDepth 20000 in
/-- Witness for C6: appending junk bytes after the declared region end
and then truncating at the region end leaves both decoders' results
unchanged on concrete buffers (the sample negotiate context and the
repository CREATE request test vector, each followed by three junk
bytes). -/
theorem bounded_region_containment_witness :
    NegotiateContext.read
        ([1, 0, 10, 0, 0, 0, 0, 0, 1, 0, 4, 0, 1, 0, 237, 0, 108, 48] ++ [9, 9, 9]) 0
      = NegotiateContext.read
        (([1, 0, 10, 0, 0, 0, 0, 0, 1, 0, 4, 0, 1, 0, 237, 0, 108, 48] ++ [9, 9, 9]).take
          (alignUp 0 8 + 8 + 10)) 0
    ∧ CreateRequest.read requestCtxCodec (createRequestTestBytes ++ [9, 9, 9])
      = CreateRequest.read requestCtxCodec
        ((createRequestTestBytes ++ [9, 9, 9]).take (alignUp (56 + 10) 8 + 104)) :=
  ⟨bounded_region_containment.1
      ([1, 0, 10, 0, 0, 0, 0, 0, 1, 0, 4, 0, 1, 0, 237, 0, 108, 48] ++ [9, 9, 9]) 0 10 rfl,
   bounded_region_containment.2 CreateContextRequestData requestCtxCodec
      (createRequestTestBytes ++ [9, 9, 9]) 10 104 rfl rfl⟩

/-- Byte suffixes from a later position agree whenever suffixes from an
earlier position agree. -/
theorem drop_congr_ge {b₁ b₂ : List Nat} {P : Nat} (h : b₁.drop P = b₂.drop P)
    {q : Nat} (hq : P ≤ q) : b₁.drop q = b₂.drop q := by
  have e₁ : b₁.drop q = (b₁.drop P).drop (q - P) := by
    rw [List.drop_drop]
    congr 1
    omega
  have e₂ : b₂.drop q = (b₂.drop P).drop (q - P) := by
    rw [List.drop_drop]
    congr 1
    omega
  rw [e₁, e₂, h]

/-- A raw read at or after position `P` gives the same result on two
equal-length buffers whose bytes agree from `P` on. -/
theorem readBytes_congr_suffix {b₁ b₂ : List Nat} {P : Nat}
    (hlen : b₁.length = b₂.length) (hdrop : b₁.drop P = b₂.drop P)
    (q n : Nat) (hq : P ≤ q) :
    readBytes b₁ q n = readBytes b₂ q n := by
  unfold readBytes
  rw [hlen, drop_congr_ge hdrop hq]

/-- A raw read entirely inside the first `M` bytes gives the same result
on two equal-length buffers whose first `M` bytes agree. -/
theorem readBytes_congr_front {b₁ b₂ : List Nat} {M : Nat}
    (hlen : b₁.length = b₂.length) (htake : b₁.take M = b₂.take M)
    (q n : Nat) (h : q + n ≤ M) :
    readBytes b₁ q n = readBytes b₂ q n := by
  have hv : (b₁.drop q).take n = (b₂.drop q).take n := by
    have e₁ : (b₁.drop q).take n = ((b₁.take M).drop q).take n := by
      rw [List.drop_take, List.take_take]
      congr 1
      omega
    have e₂ : (b₂.drop q).take n = ((b₂.take M).drop q).take n := by
      rw [List.drop_take, List.take_take]
      congr 1
      omega
    rw [e₁, e₂, htake]
  unfold readBytes
  rw [hlen, hv]

/-- `readU8` congruence from a common suffix. -/
theorem readU8_congr_suffix {b₁ b₂ : List Nat} {P : Nat}
    (hlen : b₁.length = b₂.length) (hdrop : b₁.drop P = b₂.drop P)
    (q : Nat) (hq : P ≤ q) : readU8 b₁ q = readU8 b₂ q := by
  unfold readU8
  rw [readBytes_congr_suffix hlen hdrop q 1 hq]

/-- `readU16` congruence from a common suffix. -/
theorem readU16_congr_suffix {b₁ b₂ : List Nat} {P : Nat}
    (hlen : b₁.length = b₂.length) (hdrop : b₁.drop P = b₂.drop P)
    (q : Nat) (hq : P ≤ q) : readU16 b₁ q = readU16 b₂ q := by
  unfold readU16
  rw [readBytes_congr_suffix hlen hdrop q 2 hq]

/-- `readU32` congruence from a common suffix. -/
theorem readU32_congr_suffix {b₁ b₂ : List Nat} {P : Nat}
    (hlen : b₁.length = b₂.length) (hdrop : b₁.drop P = b₂.drop P)
    (q : Nat) (hq : P ≤ q) : readU32 b₁ q = readU32 b₂ q := by
  unfold readU32
  rw [readBytes_congr_suffix hlen hdrop q 4 hq]

/-- `readU64` congruence from a common suffix. -/
theorem readU64_congr_suffix {b₁ b₂ : List Nat} {P : Nat}
    (hlen : b₁.length = b₂.length) (hdrop : b₁.drop P = b₂.drop P)
    (q : Nat) (hq : P ≤ q) : readU64 b₁ q = readU64 b₂ q := by
  unfold readU64
  rw [readBytes_congr_suffix hlen hdrop q 8 hq]

/-- `readU128` congruence from a common suffix. -/
theorem readU128_congr_suffix {b₁ b₂ : List Nat} {P : Nat}
    (hlen : b₁.length = b₂.length) (hdrop : b₁.drop P = b₂.drop P)
    (q : Nat) (hq : P ≤ q) : readU128 b₁ q = readU128 b₂ q := by
  unfold readU128
  rw [readBytes_congr_suffix hlen hdrop q 16 hq]

/-- `readU8` congruence from a common prefix. -/
theorem readU8_congr_front {b₁ b₂ : List Nat} {M : Nat}
    (hlen : b₁.length = b₂.length) (htake : b₁.take M = b₂.take M)
    (q : Nat) (h : q + 1 ≤ M) : readU8 b₁ q = readU8 b₂ q := by
  unfold readU8
  rw [readBytes_congr_front hlen htake q 1 h]

/-- `readU16` congruence from a common prefix. -/
theorem readU16_congr_front {b₁ b₂ : List Nat} {M : Nat}
    (hlen : b₁.length = b₂.length) (htake : b₁.take M = b₂.take M)
    (q : Nat) (h : q + 2 ≤ M) : readU16 b₁ q = readU16 b₂ q := by
  unfold readU16
  rw [readBytes_congr_front hlen htake q 2 h]

/-- `readU32` congruence from a common prefix. -/
theorem readU32_congr_front {b₁ b₂ : List Nat} {M : Nat}
    (hlen : b₁.length = b₂.length) (htake : b₁.take M = b₂.take M)
    (q : Nat) (h : q + 4 ≤ M) : readU32 b₁ q = readU32 b₂ q := by
  unfold readU32
  rw [readBytes_congr_front hlen htake q 4 h]

/-- `readU64` congruence from a common prefix. -/
theorem readU64_congr_front {b₁ b₂ : List Nat} {M : Nat}
    (hlen : b₁.length = b₂.length) (htake : b₁.take M = b₂.take M)
    (q : Nat) (h : q + 8 ≤ M) : readU64 b₁ q = readU64 b₂ q := by
  unfold readU64
  rw [readBytes_congr_front hlen htake q 8 h]

/-- Sized-wide-string decode congruence from a common prefix. -/
theorem sizedWideString_decode_congr_front {b₁ b₂ : List Nat} {M : Nat}
    (hlen : b₁.length = b₂.length) (htake : b₁.take M = b₂.take M)
    (q n : Nat) (h : q + n ≤ M) :
    SizedWideString.decode b₁ q n = SizedWideString.decode b₂ q n := by
  unfold SizedWideString.decode
  rw [readBytes_congr_front hlen htake q n h]

/-- The concrete create-context data decoder is local: it reads only at
or after its start position, besides the region length. -/
theorem requestCtxCodec_local : CtxDecLocal requestCtxCodec := by
  intro b₁ b₂ nm p hlen hdrop
  simp only [requestCtxCodec, CreateContextRequestData.dec]
  by_cases h1 : nm = DH2Q_NAME
  · rw [if_pos h1, if_pos h1,
      readU32_congr_suffix hlen hdrop p (le_refl p),
      readU32_congr_suffix hlen hdrop (p + 4) (by omega),
      readU64_congr_suffix hlen hdrop (p + 8) (by omega),
      readBytes_congr_suffix hlen hdrop (p + 16) 16 (by omega)]
  · rw [if_neg h1, if_neg h1]
    by_cases h2 : nm = MXAC_NAME
    · rw [if_pos h2, if_pos h2, hlen,
        readU64_congr_suffix hlen hdrop p (le_refl p)]
    · rw [if_neg h2, if_neg h2]
      by_cases h3 : nm = QFID_NAME
      · rw [if_pos h3, if_pos h3]
      · rw [if_neg h3, if_neg h3]
        by_cases h4 : nm = DHNQ_NAME
        · rw [if_pos h4, if_pos h4,
            readU128_congr_suffix hlen hdrop p (le_refl p)]
        · rw [if_neg h4, if_neg h4]
          by_cases h5 : nm = ALSI_NAME
          · rw [if_pos h5, if_pos h5,
              readU64_congr_suffix hlen hdrop p (le_refl p)]
          · rw [if_neg h5, if_neg h5]

/-- The chain walk is a function of the region length and the bytes from
its start on, for any local body decoder: it inspects nothing before the
current item. -/
theorem read_loop_congr {β : Type} (C : BodyCodec β) (pad : Nat) (hC : DecLocal C)
    {b₁ b₂ : List Nat} {P : Nat} (hlen : b₁.length = b₂.length)
    (hdrop : b₁.drop P = b₂.drop P) :
    ∀ (fuel pos : Nat), P ≤ pos →
      ChainedItem.read_loop C pad b₁ fuel pos = ChainedItem.read_loop C pad b₂ fuel pos := by
  intro fuel
  induction fuel with
  | zero => intro pos _; rfl
  | succ f ih =>
    intro pos hpos
    unfold ChainedItem.read_loop
    rw [show readU32 b₁ pos = readU32 b₂ pos from
      readU32_congr_suffix hlen hdrop pos hpos]
    cases hv : readU32 b₂ pos with
    | error e => rfl
    | ok off =>
      simp only [ok_bind]
      by_cases hmod : off % pad = 0
      · rw [if_pos hmod, if_pos hmod,
          hC b₁ b₂ (pos + 4) hlen (drop_congr_ge hdrop (by omega))]
        cases hd : C.dec b₂ (pos + 4) with
        | error e => rfl
        | ok r =>
          simp only [ok_bind]
          by_cases h0 : off = 0
          · rw [if_pos h0, if_pos h0]
          · rw [if_neg h0, if_neg h0, ih (pos + off) (by omega)]
      · rw [if_neg hmod, if_neg hmod]

/-- `read_chained` congruence: the whole chain parse is a function of the
region length and the bytes from the chain start on. -/
theorem read_chained_congr {β : Type} (C : BodyCodec β) (pad : Nat) (hC : DecLocal C)
    {b₁ b₂ : List Nat} {P : Nat} (hlen : b₁.length = b₂.length)
    (hdrop : b₁.drop P = b₂.drop P) (pos : Nat) (hpos : P ≤ pos) :
    ChainedItem.read_chained C pad b₁ pos = ChainedItem.read_chained C pad b₂ pos := by
  unfold ChainedItem.read_chained
  rw [hlen]
  by_cases h : pos = b₂.length
  · rw [if_pos h, if_pos h]
  · rw [if_neg h, if_neg h, read_loop_congr C pad hC hlen hdrop (b₂.length + 1) pos hpos]

/-- `CreateContext` reading is local whenever the payload decoder is: the
name offset is forced to be at least the 4-byte prefix it incorporates,
the data region starts at or after the item, and nothing earlier is
inspected. -/
theorem createContext_read_congr {τ : Type} (D : CtxDataCodec τ) (hD : CtxDecLocal D)
    {b₁ b₂ : List Nat} {P : Nat} (hlen : b₁.length = b₂.length)
    (hdrop : b₁.drop P = b₂.drop P) (pos : Nat) (hpos : P ≤ pos) :
    CreateContext.read D b₁ pos = CreateContext.read D b₂ pos := by
  have htt : ∀ (d X : Nat), P ≤ d → (b₁.take X).drop d = (b₂.take X).drop d := by
    intro d X hd
    rw [List.drop_take, List.drop_take, drop_congr_ge hdrop hd]
  unfold CreateContext.read
  rw [readU16_congr_suffix hlen hdrop pos hpos]
  cases hnoff : readU16 b₂ pos with
  | error e => rfl
  | ok noff =>
    simp only [ok_bind]
    rw [readU16_congr_suffix hlen hdrop (pos + 2) (by omega)]
    cases hnlen : readU16 b₂ (pos + 2) with
    | error e => rfl
    | ok nlen =>
      simp only [ok_bind]
      rw [readU16_congr_suffix hlen hdrop (pos + 4) (by omega)]
      cases hres : readU16 b₂ (pos + 4) with
      | error e => rfl
      | ok res =>
        simp only [ok_bind]
        rw [readU16_congr_suffix hlen hdrop (pos + 6) (by omega)]
        cases hdoff : readU16 b₂ (pos + 6) with
        | error e => rfl
        | ok doff =>
          simp only [ok_bind]
          rw [readU32_congr_suffix hlen hdrop (pos + 8) (by omega)]
          cases hdlen : readU32 b₂ (pos + 8) with
          | error e => rfl
          | ok dlen =>
            simp only [ok_bind]
            by_cases hn4 : noff < 4
            · rw [if_pos hn4, if_pos hn4]
            · rw [if_neg hn4, if_neg hn4,
                readBytes_congr_suffix hlen hdrop (pos + noff - 4) nlen (by omega)]
              cases hname : readBytes b₂ (pos + noff - 4) nlen with
              | error e => rfl
              | ok name =>
                simp only [ok_bind]
                by_cases hmod : doff % 8 ≠ 0
                · rw [if_pos hmod, if_pos hmod]
                · rw [if_neg hmod, if_neg hmod]
                  by_cases hguard : 0 < dlen ∧ doff < 4
                  · rw [if_pos hguard, if_pos hguard]
                  · rw [if_neg hguard, if_neg hguard]
                    by_cases hdl : 0 < dlen
                    · simp only [if_pos hdl]
                      rw [hD (b₁.take (pos + doff - 4 + dlen))
                        (b₂.take (pos + doff - 4 + dlen)) name (pos + doff - 4)
                        (by simp only [List.length_take, hlen])
                        (htt (pos + doff - 4) (pos + doff - 4 + dlen)
                          (by simp at hguard; omega))]
                    · simp only [if_neg hdl]
                      rw [hD (b₁.take (pos + noff - 4 + nlen + dlen))
                        (b₂.take (pos + noff - 4 + nlen + dlen)) name
                        (pos + noff - 4 + nlen)
                        (by simp only [List.length_take, hlen])
                        (htt (pos + noff - 4 + nlen) (pos + noff - 4 + nlen + dlen)
                          (by omega))]

/-- The chained body codec of `CreateContext<T>` is local whenever the
payload decoder is. -/
theorem createContext_codec_local {τ : Type} (D : CtxDataCodec τ) (hD : CtxDecLocal D) :
    DecLocal (CreateContext.codec D) := by
  intro b₁ b₂ p hlen hdrop
  exact createContext_read_congr D hD hlen hdrop p (le_refl p)

/-- **C9.** Padding-byte noninterference: two CREATE request buffers of
equal length that agree on every byte up to the end of the name
(`56 + name_length`) and on every byte from the 8-aligned context start
on — i.e. that differ only in the alignment-padding bytes the reader
skips with its `align_before = 8` seek — decode identically, whatever
values the padding bytes hold, for every local context-data decoder.
The padding is skipped without being inspected or validated to be
zero. -/
theorem padding_noninterference :
    ∀ (τ : Type) (D : CtxDataCodec τ), CtxDecLocal D →
    ∀ (b₁ b₂ : List Nat) (nlen : Nat),
      readU16 b₁ 46 = .ok nlen →
      b₁.length = b₂.length →
      b₁.take (56 + nlen) = b₂.take (56 + nlen) →
      b₁.drop (alignUp (56 + nlen) 8) = b₂.drop (alignUp (56 + nlen) 8) →
      CreateRequest.read D b₁ = CreateRequest.read D b₂ := by
  intro τ D hD b₁ b₂ nlen h46 hlen htake hdrop
  have h46b : readU16 b₂ 46 = .ok nlen := by
    rw [← readU16_congr_front hlen htake 46 (by omega)]
    exact h46
  unfold CreateRequest.read
  dsimp only
  have hA : alignUp 56 8 = 56 := by decide
  simp only [hA]
  simp only [readU16_congr_front hlen htake 0 (by omega),
    readU8_congr_front hlen htake 2 (by omega),
    readU8_congr_front hlen htake 3 (by omega),
    readU32_congr_front hlen htake 4 (by omega),
    readU64_congr_front hlen htake 8 (by omega),
    readU64_congr_front hlen htake 16 (by omega),
    readU32_congr_front hlen htake 24 (by omega),
    readU32_congr_front hlen htake 28 (by omega),
    readU32_congr_front hlen htake 32 (by omega),
    readU32_congr_front hlen htake 36 (by omega),
    readU32_congr_front hlen htake 40 (by omega),
    readU16_congr_front hlen htake 44 (by omega),
    readU16_congr_front hlen htake 46 (by omega),
    readU32_congr_front hlen htake 48 (by omega),
    readU32_congr_front hlen htake 52 (by omega)]
  simp only [h46b, ok_bind]
  simp only [sizedWideString_decode_congr_front hlen htake 56 nlen (by omega)]
  have hchain : ∀ cl : Nat,
      ChainedItem.read_chained (CreateContext.codec D) 8
        (b₁.take (alignUp (56 + nlen) 8 + cl)) (alignUp (56 + nlen) 8)
      = ChainedItem.read_chained (CreateContext.codec D) 8
        (b₂.take (alignUp (56 + nlen) 8 + cl)) (alignUp (56 + nlen) 8) := by
    intro cl
    exact read_chained_congr (CreateContext.codec D) 8 (createContext_codec_local D hD)
      (by simp only [List.length_take, hlen])
      (by rw [List.drop_take, List.drop_take, drop_congr_ge hdrop (le_refl _)])
      (alignUp (56 + nlen) 8) (le_refl _)
  simp only [hchain]

set_option maxRecDepth 20000 in
/-- Witness for C9: overwriting the six alignment-padding bytes at
positions 66–71 of the repository CREATE request test vector with
1,2,3,4,5,6 leaves the decode result unchanged. -/
theorem padding_noninterference_witness :
    CreateRequest.read requestCtxCodec createRequestTestBytes
      = CreateRequest.read requestCtxCodec
        (createRequestTestBytes.take 66
          ++ ([1, 2, 3, 4, 5, 6] ++ createRequestTestBytes.drop 72)) :=
  padding_noninterference CreateContextRequestData requestCtxCodec requestCtxCodec_local
    createRequestTestBytes
    (createRequestTestBytes.take 66 ++ ([1, 2, 3, 4, 5, 6] ++ createRequestTestBytes.drop 72))
    10 rfl rfl rfl rfl

end Smb
